import Mathlib

/-!
Verification development for the BIONARY_CHATBOT repository.

Shallow embedding of the two core source files:
  * `retriever.py`   — hybrid (vector + keyword) retrieval against the
    events database (`query_vector_db`, `query_relational_db`);
  * `query_pipeline.py` — the routing pipeline (`_parse_json_from_response`,
    `handle_user_query`).

External collaborators (the Gemini model, psycopg2 / the Neon database, the
sentence-transformer model) are modelled as environment records whose fields
give the outcome of each call the Python code makes: a successful result, or
the exception the call raised (`Except`).  Everything the Python code itself
computes is translated directly.
-/

namespace Bionary

/-! ## A model of Python JSON values (`json.loads` output) -/

/-- A decoded JSON value, as produced by Python's `json.loads`.
Numbers keep their source lexeme (the claims checked here never inspect
numeric magnitudes, and keeping the lexeme avoids committing to a float
semantics the proofs would not use). -/
inductive JValue where
  | null : JValue
  | bool (b : Bool) : JValue
  | num (lexeme : String) : JValue
  | str (s : String) : JValue
  | arr (xs : List JValue) : JValue
  | obj (fields : List (String × JValue)) : JValue

/-- JSON whitespace, exactly the four characters Python's decoder skips. -/
def isJsonWs (c : Char) : Bool :=
  c = ' ' || c = '\t' || c = '\n' || c = '\r'

/-- Drop leading JSON whitespace. -/
def skipWs : List Char → List Char
  | [] => []
  | c :: t => if isJsonWs c then skipWs t else c :: t

/-- Value of a hex digit, if `c` is one. -/
def hexVal? (c : Char) : Option Nat :=
  if '0' ≤ c ∧ c ≤ '9' then some (c.toNat - 48)
  else if 'a' ≤ c ∧ c ≤ 'f' then some (c.toNat - 87)
  else if 'A' ≤ c ∧ c ≤ 'F' then some (c.toNat - 55)
  else none

/-- Four hex digits, as in a `\uXXXX` escape. -/
def parseHex4 : List Char → Option (Nat × List Char)
  | a :: b :: c :: d :: t =>
    match hexVal? a, hexVal? b, hexVal? c, hexVal? d with
    | some x, some y, some z, some w => some ((((x * 16 + y) * 16 + z) * 16 + w), t)
    | _, _, _, _ => none
  | _ => none

/-- Body of a JSON string after the opening quote: strict mode (raw control
characters are rejected), the standard escapes, and `\uXXXX` with surrogate
pairs combined.  A lone surrogate, which Python keeps as-is in its `str`,
falls outside Lean's `Char` range and is mapped through `Char.ofNat`.
The head character is discriminated with `if` tests so that proofs can
follow the branches of a symbolic input. -/
def parseStringBody (fuel : Nat) (cs : List Char) (acc : List Char) :
    Except String (String × List Char) :=
  match fuel with
  | 0 => .error "fuel exhausted"
  | fuel + 1 =>
    match cs with
    | [] => .error "Unterminated string"
    | c :: t =>
      if c = '"' then .ok (acc.reverse.asString, t)
      else if c = '\\' then
        match t with
        | [] => .error "Unterminated string"
        | e :: t2 =>
          if e = '"' then parseStringBody fuel t2 ('"' :: acc)
          else if e = '\\' then parseStringBody fuel t2 ('\\' :: acc)
          else if e = '/' then parseStringBody fuel t2 ('/' :: acc)
          else if e = 'b' then parseStringBody fuel t2 ('\x08' :: acc)
          else if e = 'f' then parseStringBody fuel t2 ('\x0c' :: acc)
          else if e = 'n' then parseStringBody fuel t2 ('\n' :: acc)
          else if e = 'r' then parseStringBody fuel t2 ('\r' :: acc)
          else if e = 't' then parseStringBody fuel t2 ('\t' :: acc)
          else if e = 'u' then
            match parseHex4 t2 with
            | none => .error "Invalid \\uXXXX escape"
            | some (v, t3) =>
              if 0xD800 ≤ v ∧ v ≤ 0xDBFF then
                match t3 with
                | a :: b :: rest =>
                  if a = '\\' ∧ b = 'u' then
                    match parseHex4 rest with
                    | some (w, t4) =>
                      if 0xDC00 ≤ w ∧ w ≤ 0xDFFF then
                        parseStringBody fuel t4
                          (Char.ofNat (0x10000 + (v - 0xD800) * 0x400 + (w - 0xDC00)) :: acc)
                      else parseStringBody fuel t3 (Char.ofNat v :: acc)
                    | none => parseStringBody fuel t3 (Char.ofNat v :: acc)
                  else parseStringBody fuel t3 (Char.ofNat v :: acc)
                | _ => parseStringBody fuel t3 (Char.ofNat v :: acc)
              else parseStringBody fuel t3 (Char.ofNat v :: acc)
          else .error "Invalid escape"
      else if c.toNat < 0x20 then .error "Invalid control character"
      else parseStringBody fuel t (c :: acc)

/-- The optional `(\.[0-9]+)?` fraction after a number's integer part:
the consumed characters and the rest. -/
def fracSplit (rest : List Char) : List Char × List Char :=
  match rest with
  | d :: r =>
    if d = '.' then
      let (ds, r2) := r.span Char.isDigit
      if ds.isEmpty then ([], rest) else ('.' :: ds, r2)
    else ([], rest)
  | [] => ([], rest)

/-- The optional `([eE][+-]?[0-9]+)?` exponent after the fraction:
the consumed characters and the rest. -/
def expSplit (rest1 : List Char) : List Char × List Char :=
  match rest1 with
  | e :: r =>
    if e = 'e' ∨ e = 'E' then
      let (sgn, r1) : List Char × List Char :=
        match r with
        | s :: r2 => if s = '+' ∨ s = '-' then ([s], r2) else ([], r)
        | [] => ([], r)
      let (ds, r2) := r1.span Char.isDigit
      if ds.isEmpty then ([], rest1) else (e :: (sgn ++ ds), r2)
    else ([], rest1)
  | [] => ([], rest1)

/-- Optional fraction and exponent after a number's integer part, per the
grammar Python's decoder matches. -/
def numTail (neg intPart : List Char) (rest : List Char) :
    Except String (String × List Char) :=
  let (frac, rest1) := fracSplit rest
  let (expPart, rest2) := expSplit rest1
  .ok ((neg ++ intPart ++ frac ++ expPart).asString, rest2)

/-- A JSON number lexeme: `-? (0 | [1-9][0-9]*) (\.[0-9]+)? ([eE][+-]?[0-9]+)?`,
the grammar Python's decoder matches.  Returns the lexeme and the rest. -/
def parseNumberLex (cs : List Char) : Except String (String × List Char) :=
  let (neg, cs1) : List Char × List Char :=
    match cs with
    | c :: t => if c = '-' then (['-'], t) else ([], cs)
    | [] => ([], cs)
  match cs1 with
  | [] => .error "Expecting value"
  | c :: t =>
    if c = '0' then
      numTail neg ['0'] t
    else if c.isDigit then
      let (ds, rest) := cs1.span Char.isDigit
      numTail neg ds rest
    else .error "Expecting value"

/-- Match a literal keyword tail (`rue` of `true`, …): the rest of the
input on success, as Python's scanner does for the constant literals. -/
def matchLiteral : List Char → List Char → Option (List Char)
  | [], rest => some rest
  | c :: p, d :: rest => if d = c then matchLiteral p rest else none
  | _ :: _, [] => none

/-- Wrap a number lexeme as a JSON value. -/
def parseNumberValue (cs : List Char) : Except String (JValue × List Char) :=
  match parseNumberLex cs with
  | .error e => .error e
  | .ok (s, r) => .ok (.num s, r)

mutual

/-- One JSON value, fuel-bounded recursive descent mirroring Python's
`json.loads` grammar (including the non-standard `NaN`, `Infinity`,
`-Infinity` constants Python accepts by default).  The head character is
discriminated with `if` tests so that proofs can follow the branches of a
symbolic input; a keyword head whose literal does not complete falls back
to the number scanner, exactly as the pattern fall-through would. -/
def parseValue : Nat → List Char → Except String (JValue × List Char)
  | 0, _ => .error "fuel exhausted"
  | fuel + 1, cs =>
    match cs with
    | [] => .error "Expecting value"
    | c :: t =>
      if c = '\x7b' then
        match skipWs t with
        | d :: t2 => if d = '\x7d' then .ok (.obj [], t2) else parseMembers fuel (d :: t2) []
        | [] => parseMembers fuel [] []
      else if c = '[' then
        match skipWs t with
        | d :: t2 => if d = ']' then .ok (.arr [], t2) else parseItems fuel (d :: t2) []
        | [] => parseItems fuel [] []
      else if c = '"' then
        match parseStringBody (t.length + 1) t [] with
        | .error e => .error e
        | .ok (s, r) => .ok (.str s, r)
      else if c = 't' then
        match matchLiteral ['r', 'u', 'e'] t with
        | some r => .ok (.bool true, r)
        | none => parseNumberValue cs
      else if c = 'f' then
        match matchLiteral ['a', 'l', 's', 'e'] t with
        | some r => .ok (.bool false, r)
        | none => parseNumberValue cs
      else if c = 'n' then
        match matchLiteral ['u', 'l', 'l'] t with
        | some r => .ok (.null, r)
        | none => parseNumberValue cs
      else if c = 'N' then
        match matchLiteral ['a', 'N'] t with
        | some r => .ok (.num "NaN", r)
        | none => parseNumberValue cs
      else if c = 'I' then
        match matchLiteral ['n', 'f', 'i', 'n', 'i', 't', 'y'] t with
        | some r => .ok (.num "Infinity", r)
        | none => parseNumberValue cs
      else if c = '-' then
        match matchLiteral ['I', 'n', 'f', 'i', 'n', 'i', 't', 'y'] t with
        | some r => .ok (.num "-Infinity", r)
        | none => parseNumberValue cs
      else parseNumberValue cs
  termination_by structural fuel => fuel

/-- Members of a JSON object after the opening brace (first member not yet
read; the empty object is handled by `parseValue`). -/
def parseMembers : Nat → List Char → List (String × JValue) →
    Except String (JValue × List Char)
  | 0, _, _ => .error "fuel exhausted"
  | fuel + 1, cs, acc =>
    match cs with
    | c :: t =>
      if c = '"' then
        match parseStringBody (t.length + 1) t [] with
        | .error e => .error e
        | .ok (key, r1) =>
          match skipWs r1 with
          | d :: r2 =>
            if d = ':' then
              match parseValue fuel (skipWs r2) with
              | .error e => .error e
              | .ok (v, r3) =>
                match skipWs r3 with
                | d2 :: r4 =>
                  if d2 = ',' then parseMembers fuel (skipWs r4) (acc ++ [(key, v)])
                  else if d2 = '\x7d' then .ok (.obj (acc ++ [(key, v)]), r4)
                  else .error "Expecting comma delimiter"
                | [] => .error "Expecting comma delimiter"
            else .error "Expecting colon delimiter"
          | [] => .error "Expecting colon delimiter"
      else .error "Expecting property name enclosed in double quotes"
    | [] => .error "Expecting property name enclosed in double quotes"
  termination_by structural fuel => fuel

/-- Items of a JSON array after the opening bracket (first item not yet
read; the empty array is handled by `parseValue`). -/
def parseItems : Nat → List Char → List JValue → Except String (JValue × List Char)
  | 0, _, _ => .error "fuel exhausted"
  | fuel + 1, cs, acc =>
    match parseValue fuel cs with
    | .error e => .error e
    | .ok (v, r1) =>
      match skipWs r1 with
      | d :: r2 =>
        if d = ',' then parseItems fuel (skipWs r2) (acc ++ [v])
        else if d = ']' then .ok (.arr (acc ++ [v]), r2)
        else .error "Expecting comma delimiter"
      | [] => .error "Expecting comma delimiter"
  termination_by structural fuel => fuel

end

/-- Python's `json.loads`: one JSON value, surrounded only by whitespace. -/
def jsonLoads (s : String) : Except String JValue :=
  let cs := skipWs s.toList
  match parseValue (2 * s.length + 4) cs with
  | .error e => .error e
  | .ok (v, rest) => if (skipWs rest).isEmpty then .ok v else .error "Extra data"

/-! ## The regex step of `_parse_json_from_response`

`re.search(r"\{.*\}", text, re.DOTALL)` matches (leftmost start, greedy
extent) exactly when some `{` has a `}` strictly after it; the matched group
then runs from the **first** `{` of the text to the **last** `}` of the
text. -/

/-- Whether the text has an object-like region: a `{` with a `}` after it
(i.e. `re.search(r"\{.*\}", text, re.DOTALL)` finds a match). -/
def containsObjLike (s : String) : Bool :=
  match s.toList.dropWhile (fun c => c ≠ '\x7b') with
  | [] => false
  | _ :: t => t.contains '\x7d'

/-- The group matched by `re.search(r"\{.*\}", text, re.DOTALL)`: from the
first `{` of the text to the last `}` of the text, or `none` when there is
no match. -/
def regexObjMatch (s : String) : Option String :=
  match s.toList.dropWhile (fun c => c ≠ '\x7b') with
  | [] => none
  | c :: t =>
    if t.contains '\x7d' then
      some (((c :: t).reverse.dropWhile (fun x => x ≠ '\x7d')).reverse.asString)
    else none

/-- `_parse_json_from_response` from `query_pipeline.py`: extract the regex
group and decode it; on no match or a decode failure return the fixed error
dictionary. -/
def parse_json_from_response (text : String) : JValue :=
  match regexObjMatch text with
  | none => .obj [("intent", .str "error"), ("query", .str "Could not parse.")]
  | some json_str =>
    match jsonLoads json_str with
    | .ok v => v
    | .error _ => .obj [("intent", .str "error"), ("query", .str "Invalid JSON.")]

/-! ## `retriever.py`: hybrid search

The Neon/psycopg2 connection, the embedding model and the two SQL
executions are external collaborators; a `VecEnv` fixes the outcome of each
call `query_vector_db` makes during one invocation (`Except` = the call
raised).  Everything else is the function's own Python code, translated
directly. -/

/-- `TOP_K` from `retriever.py`. -/
def TOP_K : Nat := 5

/-- The vector-search SQL text.  In the source it is an f-string, so
`{TOP_K}` is interpolated to `5`. -/
def vector_search_sql : String :=
  "\n                SELECT text_chunk, embedding <-> %s AS distance\n                FROM chunks\n                ORDER BY distance\n                LIMIT " ++ toString TOP_K ++ ";\n                "

/-- The keyword-search SQL text (`keyword_query` in the source).  It is a
plain string literal, not an f-string, so the text `LIMIT \x7bTOP_K\x7d;`
is kept verbatim. -/
def keyword_search_sql : String :=
  "\n                SELECT text_chunk, ts_rank_cd(to_tsvector('english', text_chunk), query) AS rank\n                FROM chunks, websearch_to_tsquery('english', %s) query\n                WHERE query @@ to_tsvector('english', text_chunk)\n                ORDER BY rank DESC\n                LIMIT \x7bTOP_K\x7d;\n            "

/-- Externally observable steps of one `query_vector_db` call. -/
inductive RetEvent where
  | connectAttempt : RetEvent
  | vectorSearchTry : RetEvent
  | keywordExec (sql : String) : RetEvent
deriving DecidableEq

/-- The outcomes of the external calls during one `query_vector_db`
invocation: whether the sentence-transformer singleton loaded (`model is
None` otherwise), whether `_connect_to_db` returns a connection, the result
rows (their `text_chunk` column) or exception of the vector try-block and of
the keyword execution, whether the connection reports closed after the
vector stage, and whether the reconnect attempted in that case succeeds. -/
structure VecEnv where
  modelLoaded : Bool
  connectOk : Bool
  vectorRows : Except Unit (List String)
  connClosedAfterVector : Bool
  reconnectOk : Bool
  keywordRows : Except Unit (List String)

/-- Python dict assignment `m[k] = v`: update in place if the key exists
(insertion position kept), else append. -/
def dictInsert : List (String × Nat) → String → Nat → List (String × Nat)
  | [], k, v => [(k, v)]
  | (k0, v0) :: t, k, v =>
    if k0 = k then (k0, v) :: t else (k0, v0) :: dictInsert t k v

/-- Python `k in m` for the same dict. -/
def containsKey : List (String × Nat) → String → Bool
  | [], _ => false
  | (k0, _) :: t, k => k0 = k || containsKey t k

/-- The vector loop `for i, row in enumerate(rows): combined_results_map[row[0]] = i`,
starting from dict `m` with next rank `i`. -/
def vectorPhaseGo (m : List (String × Nat)) (i : Nat) : List String → List (String × Nat)
  | [] => m
  | r :: t => vectorPhaseGo (dictInsert m r i) (i + 1) t

/-- The vector stage applied to the empty dict. -/
def vectorPhase (rows : List String) : List (String × Nat) :=
  vectorPhaseGo [] 0 rows

/-- The keyword loop: `if row[0] not in combined_results_map:
combined_results_map[row[0]] = 100`. -/
def keywordPhase (m : List (String × Nat)) : List String → List (String × Nat)
  | [] => m
  | r :: t => keywordPhase (if containsKey m r then m else m ++ [(r, 100)]) t

/-- The sort key: `sorted(..., key=lambda x: combined_results_map[x])`
compares ranks. -/
def rankLe (p q : String × Nat) : Prop := p.2 ≤ q.2

instance : DecidableRel rankLe := fun p q => Nat.decLe p.2 q.2

instance : IsTotal (String × Nat) rankLe := ⟨fun p q => Nat.le_total p.2 q.2⟩

instance : IsTrans (String × Nat) rankLe := ⟨fun _ _ _ => Nat.le_trans⟩

/-- `query_vector_db` from `retriever.py`, with its observable events.
Python's `sorted` is a stable sort by rank; `List.insertionSort` with
`rankLe` is stable, so it realises the same ordering (dict iteration order
is insertion order).  The `rollback()` calls inside the two `except`
blocks are modelled as succeeding. -/
def query_vector_db_traced (env : VecEnv) (_query_text : String) :
    List String × List RetEvent :=
  if env.modelLoaded = false then
    (["Error: SentenceTransformer model is not loaded."], [])
  else if env.connectOk = false then
    (["Database connection error."], [.connectAttempt])
  else
    let map1 : List (String × Nat) :=
      match env.vectorRows with
      | .ok rows => vectorPhase rows
      | .error _ => []
    let keywordSkipped := env.connClosedAfterVector && !env.reconnectOk
    let map2 : List (String × Nat) :=
      if keywordSkipped then map1
      else
        match env.keywordRows with
        | .ok rows => keywordPhase map1 rows
        | .error _ => map1
    let events : List RetEvent :=
      [.connectAttempt, .vectorSearchTry]
        ++ (if env.connClosedAfterVector then [.connectAttempt] else [])
        ++ (if keywordSkipped then [] else [.keywordExec keyword_search_sql])
    let ranked_results := (List.insertionSort rankLe map2).map Prod.fst
    let result :=
      if ranked_results.isEmpty then ["No relevant documents found."]
      else ranked_results.take 10
    (result, events)

/-- The list `query_vector_db` returns. -/
def query_vector_db (env : VecEnv) (query_text : String) : List String :=
  (query_vector_db_traced env query_text).1

/-- Outcomes of the external calls of one `query_relational_db` invocation:
whether `_connect_to_db` returns a connection, and the execution's outcome —
an exception's message, or `none` when `cur.description` is falsy (no result
set), or the fetched rows.  Row values are modelled as strings. -/
structure RelEnv where
  connectOk : Bool
  execResult : Except String (Option (List (List String)))

/-- `query_relational_db` from `retriever.py`. -/
def query_relational_db (env : RelEnv) (_sql_query : String) : List (List String) :=
  if env.connectOk = false then [["Database connection error."]]
  else
    let results : List (List String) :=
      match env.execResult with
      | .error e => [["SQL error: " ++ e]]
      | .ok none => []
      | .ok (some rows) => rows
    if results.isEmpty then [["No results found for that query."]] else results

/-! ## Python value helpers used by `handle_user_query` -/

/-- Python `parsed_intent.get(k)`: `None` when missing.  `json.loads` keeps
the last value of a duplicated object key, so lookup takes the last
occurrence.  The code only calls `.get` on dicts (the decoded text starts
with `\x7b`, so a successful decode is an object). -/
def jGetFields : List (String × JValue) → String → Option JValue
  | [], _ => none
  | (k0, v0) :: t, k =>
    match jGetFields t k with
    | some r => some r
    | none => if k0 = k then some v0 else none

/-- `.get` on a decoded value. -/
def jGet (v : JValue) (k : String) : Option JValue :=
  match v with
  | .obj fs => jGetFields fs k
  | _ => none

/-- Python `x == s` for a string literal `s`: only an actual `str` with the
same characters compares equal. -/
def isStrVal (v : Option JValue) (s : String) : Bool :=
  match v with
  | some (.str t) => t = s
  | _ => false

/-- Whether the digits of a number lexeme's mantissa are all zero (the
lexeme denotes the float/int zero). -/
def mantissaAllZero (lexeme : String) : Bool :=
  (lexeme.toList.takeWhile (fun c => c ≠ 'e' ∧ c ≠ 'E')).all
    (fun c => !('1' ≤ c ∧ c ≤ '9'))

/-- Python truthiness of a decoded JSON value. -/
def pyFalsyVal : JValue → Bool
  | .null => true
  | .bool b => !b
  | .str s => s = ""
  | .num lexeme =>
    !(lexeme = "NaN" || lexeme = "Infinity" || lexeme = "-Infinity")
      && mantissaAllZero lexeme
  | .arr xs => xs.isEmpty
  | .obj fs => fs.isEmpty

/-- Python `not x` where `x` is `.get`'s result (`None` is falsy). -/
def pyFalsyOpt : Option JValue → Bool
  | none => true
  | some v => pyFalsyVal v

/-- Python `repr` of a string: quote choice and the common escapes (an
approximation for exotic characters, which no claim exercises). -/
def pyReprStr (s : String) : String :=
  let hasSingle := s.toList.contains '\x27'
  let hasDouble := s.toList.contains '"'
  let q : Char := if hasSingle && !hasDouble then '"' else '\x27'
  let esc := s.toList.foldr
    (fun c acc =>
      if c = '\\' then '\\' :: '\\' :: acc
      else if c = q then '\\' :: q :: acc
      else if c = '\n' then '\\' :: 'n' :: acc
      else if c = '\r' then '\\' :: 'r' :: acc
      else if c = '\t' then '\\' :: 't' :: acc
      else c :: acc) []
  (q :: esc ++ [q]).asString

/-- Python `repr`/`str` of a decoded JSON value (`str` of a container is its
`repr`; numbers are rendered by their lexeme). -/
def pyReprVal : JValue → String
  | .null => "None"
  | .bool true => "True"
  | .bool false => "False"
  | .num lexeme => lexeme
  | .str s => pyReprStr s
  | .arr xs =>
    "[" ++ String.intercalate ", " (xs.attach.map (fun x => pyReprVal x.1)) ++ "]"
  | .obj fs =>
    "\x7b"
      ++ String.intercalate ", "
        (fs.attach.map (fun f => pyReprStr f.1.1 ++ ": " ++ pyReprVal f.1.2))
      ++ "\x7d"
decreasing_by
  · have h := List.sizeOf_lt_of_mem x.2
    simp only [JValue.arr.sizeOf_spec]
    omega
  · have h := List.sizeOf_lt_of_mem f.2
    have h2 : sizeOf f.1.2 < sizeOf f.1 := by
      obtain ⟨⟨k, v⟩, hm⟩ := f
      simp
    simp only [JValue.obj.sizeOf_spec]
    omega

/-- Python `str(x)` as an f-string renders it (`str` on a `str` is itself). -/
def pyStrVal : JValue → String
  | .str s => s
  | v => pyReprVal v

/-- `str` of a `.get` result (`None` renders as `None`). -/
def pyStrOpt : Option JValue → String
  | none => "None"
  | some v => pyStrVal v

/-- Python `repr` of a fetched row (a tuple of values, modelled as
strings). -/
def pyReprRow : List String → String
  | [x] => "(" ++ pyReprStr x ++ ",)"
  | xs => "(" ++ String.intercalate ", " (xs.map pyReprStr) ++ ")"

/-- Python `repr`/f-string rendering of `sql_results` (a list of rows). -/
def pyReprRows (rows : List (List String)) : String :=
  "[" ++ String.intercalate ", " (rows.map pyReprRow) ++ "]"

/-! ## `query_pipeline.py`: prompts -/

/-- `current_year` in `handle_user_query`. -/
def current_year : Nat := 2025

/-- `parsing_prompt` from `handle_user_query`: the dedented f-string with
`current_year`, `current_year - 1` and `user_question` interpolated. -/
def mkParsingPrompt (user_question : String) : String :=
  "\n" ++ String.intercalate "\n"
    [ "You are a query-parsing agent for a university club's knowledge base.",
      "Your job is to convert a user's question into a JSON object, choosing the best tool.",
      "",
      "You have two tools:",
      "1. Relational DB (PostgreSQL) for structured facts (who, when, how many, list all).",
      "2. Vector DB (pgvector) for conceptual/descriptive questions (what, tell me about, topic search).",
      "",
      "--- DATABASE SCHEMA ---",
      "",
      "Table: 'events' (Structured Facts)",
      "Columns: [",
      "    event_id (TEXT, PK, e.g., 'Circuit Craft'),",
      "    name_of_event (TEXT),",
      "    club_name (TEXT, e.g., 'BIONARY'),",
      "    event_domain (TEXT, e.g., 'Hardware / IoT', 'AI / ML', 'Design / 3D Modeling', 'Hackathon / AI / Robotics'),",
      "    date_of_event (DATE, format YYYY-MM-DD),",
      "    time_of_event (TEXT),",
      "    faculty_coordinators (TEXT),",
      "    student_coordinators (TEXT),",
      "    venue (TEXT),",
      "    mode_of_event (TEXT, e.g., 'Offline', 'Online'),",
      "    registration_fee (TEXT),",
      "    speakers (TEXT),",
      "    perks (TEXT)",
      "]",
      "",
      "Table: 'chunks' (Semantic Search)",
      "Columns: [",
      "    text_chunk (TEXT, e.g., 'A beginner friendly workshop...'),",
      "    embedding (VECTOR)",
      "]",
      "(Contains event descriptions, highlights, perks, club, and domain)",
      "",
      "--- JSON OUTPUT FORMAT ---",
      "\x7b\"intent\": \"semantic\", \"query\": \"text to search for\"\x7d",
      "OR",
      "\x7b\"intent\": \"structured\", \"query\": \"SELECT ... FROM events WHERE ...\"\x7d",
      "",
      "--- RULES ---",
      "",
      "1.  **Use SQL for Departments/Domains:** To find events by department (e.g., \"robotics\", \"AI\", \"hardware\"), you **MUST** query the `event_domain` column.",
      "    (e.g., `event_domain ILIKE '%robotics%'`)",
      "",
      "2.  **Prioritize SQL for Facts:** You **MUST** use \"intent: structured\" for any other specific facts:",
      "    - \"Who\" (e.g., 'speakers', 'faculty_coordinators')",
      "    - \"When\" (e.g., 'date_of_event')",
      "    - \"How many\" (e.g., `COUNT(event_id)`)",
      "    - \"List all\" (e.g., `SELECT name_of_event FROM events`)",
      "",
      "3.  **Use Semantic Search:** Use \"intent: semantic\" ONLY for conceptual or descriptive questions:",
      "    - \"What is RAG?\"",
      "    - \"Tell me about...\"",
      "    - \"What did the Arduino workshop cover?\"",
      "",
      "4.  **SQL Syntax:**",
      "    - Use `ILIKE` for case-insensitive string matching.",
      "    - Use `EXTRACT(YEAR FROM date_of_event)` to get the year.",
      "    - Assume 'this year' is " ++ toString current_year ++ ", 'last year' is "
        ++ toString (current_year - 1) ++ ".",
      "",
      "---",
      "",
      "User Question: \"" ++ user_question ++ "\"",
      "JSON Output:" ]
  ++ "\n"

/-- `final_prompt` from `handle_user_query`: the dedented f-string with the
question, the retrieved context and the SQL-query slot (`sql_query_for_prompt
if sql_query_for_prompt else 'N/A'`) interpolated. -/
def mkFinalPrompt (user_question context : String) (sqlForPrompt : Option JValue) :
    String :=
  "\n" ++ String.intercalate "\n"
    [ "You are the 'Club Knowledge Search Agent'. Your job is to synthesize a final answer",
      "from the provided context. You MUST answer the user's question.",
      "",
      "You are given the user's question, the retrieved context, and (if applicable)",
      "the SQL query that was run to get that context.",
      "",
      "---",
      "User Question:",
      user_question,
      "---",
      "Context:",
      context,
      "---",
      "SQL Query (if any):",
      (match sqlForPrompt with
       | some v => pyStrVal v
       | none => "N/A"),
      "---",
      "",
      "INSTRUCTIONS:",
      "1.  **If the Context is a Database Result (e.g., `Database query returned: [(1,)]`):**",
      "    * Look at the 'SQL Query' and the 'Context' *together*.",
      "    * If the query was `SELECT COUNT...` and the result is `[(1,)]`, the answer is 1.",
      "    * If the query was `SELECT COUNT...` and the result is `[(0,)]`, the answer is 0.",
      "    * Synthesize the raw SQL result into a natural, human-readable sentence.",
      "    * **Example:** If query was `SELECT COUNT...` and result is `[(1,)]` and question was \"How many robotics events...\", answer \"There was 1 robotics event.\"",
      "    * **Example:** If query was `SELECT speakers...` and result is `[('Dr. A',), ('Dr. B',)]`, answer \"The speakers were Dr. A and Dr. B.\"",
      "    * If the result is `[('No results found for that query.',)]` or `[]` or `[('',)]`, state \"I do not have that information in my records.\"",
      "",
      "2.  **If the Context is Semantic Text (from vector search):**",
      "    * Read the text chunks to find the answer.",
      "    * **Be helpful:** If the user asks about a specific topic (e.g., \"RAG\"), and the context shows an event *mentions* that topic (even in 'perks' or 'highlights'), you **MUST** state that you found a mention and present the details (e.g., \"Yes, the 'From Voice to Notes' event mentioned RAG in its perks...\").",
      "    * If the answer is not in the text, state \"I do not have that information in my records.\"",
      "",
      "3.  **Do not make up information.** Answer ONLY from the context.",
      "",
      "Final Answer:" ]
  ++ "\n"

/-! ## `query_pipeline.py`: the pipeline -/

/-- What one `generate_content` call yields when it does not raise: the
response text and `prompt_feedback.block_reason` (`some r` when the truthy
block reason renders as `r`). -/
structure GenResp where
  text : String
  blockReason : Option String

/-- The environment of one `handle_user_query` invocation: the Gemini
adapter as a function of the prompt (`.error` = the call raised), and the
outcomes of the external calls inside each retriever function. -/
structure PipeEnv where
  gen : String → Except String GenResp
  rel : RelEnv
  vec : VecEnv

/-- Externally observable steps of one `handle_user_query` run. -/
inductive PipeEvent where
  | genCall (prompt : String) : PipeEvent
  | relationalCall (query : JValue) : PipeEvent
  | vectorCall (query : JValue) : PipeEvent

/-- The call `member3_retriever.query_vector_db(query)` for the decoded
`query` value.  For a non-`str` value, `QUERY_PREFIX + query_text` inside
the vector `try` raises `TypeError`, so the vector stage fails whatever the
database would have returned. -/
def callVectorDb (venv : VecEnv) (v : JValue) : List String :=
  match v with
  | .str s => query_vector_db venv s
  | _ => query_vector_db { venv with vectorRows := .error () } ""

/-- The call `member3_retriever.query_relational_db(query)` for the decoded
`query` value.  For a non-`str` value, `cur.execute(query)` raises
`TypeError`, which the function's own `except` turns into an error row. -/
def callRelationalDb (renv : RelEnv) (v : JValue) : List (List String) :=
  match v with
  | .str s => query_relational_db renv s
  | _ =>
    query_relational_db
      { renv with execResult := .error "query argument must be a string" } ""

/-- Step 2 of `handle_user_query` (`--- 2. Retrieve Data ---`): from the
decoded intent to `(context, sql_query_for_prompt, the retrieval events)`. -/
def dispatchRetrieve (env : PipeEnv) (parsed_intent : JValue) :
    String × Option JValue × List PipeEvent :=
  let intent := jGet parsed_intent "intent"
  let query := jGet parsed_intent "query"
  if isStrVal intent "semantic" then
    if pyFalsyOpt query then
      ("Parser error: Missing query text for semantic search.", none, [])
    else
      let qv := query.getD .null
      let context_docs := callVectorDb env.vec qv
      (String.intercalate "\n" context_docs, none, [.vectorCall qv])
  else if isStrVal intent "structured" then
    if pyFalsyOpt query then
      ("Parser error: Missing SQL query for structured search.", none, [])
    else
      let qv := query.getD .null
      let sql_results := callRelationalDb env.rel qv
      ("Database query returned: " ++ pyReprRows sql_results, some qv,
        [.relationalCall qv])
  else
    ("Query parser failed or returned unknown intent: " ++ pyStrOpt intent, none, [])

/-- Steps 2–3 of `handle_user_query` once the parsing call returned
`respText`: retrieve, build `final_prompt`, make the second Gemini call and
produce the answer string. -/
def afterParse (env : PipeEnv) (user_question respText : String) :
    String × List PipeEvent :=
  let parsed_intent := parse_json_from_response respText
  let rcs := dispatchRetrieve env parsed_intent
  let final_prompt := mkFinalPrompt user_question rcs.1 rcs.2.1
  let answer :=
    match env.gen final_prompt with
    | .error _ => "Sorry, I had trouble formulating a response."
    | .ok final_response =>
      match final_response.blockReason with
      | some r => "Sorry, the response was blocked. Reason: " ++ r
      | none => final_response.text
  (answer, rcs.2.2 ++ [.genCall final_prompt])

/-- `handle_user_query` from `query_pipeline.py`, with its observable
events. -/
def handle_user_query_traced (env : PipeEnv) (user_question : String) :
    String × List PipeEvent :=
  let parsing_prompt := mkParsingPrompt user_question
  match env.gen parsing_prompt with
  | .error _ => ("Sorry, I had trouble understanding.", [.genCall parsing_prompt])
  | .ok parser_response =>
    let a := afterParse env user_question parser_response.text
    (a.1, .genCall parsing_prompt :: a.2)

/-- The answer string `handle_user_query` returns. -/
def handle_user_query (env : PipeEnv) (user_question : String) : String :=
  (handle_user_query_traced env user_question).1

/-- The `final_prompt` of a run whose parsing call succeeded (`none` when
the parsing call raised and no second call happens). -/
def finalPromptOf (env : PipeEnv) (user_question : String) : Option String :=
  match env.gen (mkParsingPrompt user_question) with
  | .error _ => none
  | .ok parser_response =>
    let rcs := dispatchRetrieve env (parse_json_from_response parser_response.text)
    some (mkFinalPrompt user_question rcs.1 rcs.2.1)

/-! ## Auxiliary definitions for the statements and witnesses -/

/-- The keys of the combined-results dict, in insertion order. -/
def keysOf (m : List (String × Nat)) : List String :=
  m.map Prod.fst

/-- First-occurrence deduplication, skipping anything in `seen` — the
spec's "lexical-only results deduplicated in their lexical order". -/
def dedupFirstAux (seen : List String) : List String → List String
  | [] => []
  | x :: t => if x ∈ seen then dedupFirstAux seen t else x :: dedupFirstAux (seen ++ [x]) t

/-- First-occurrence deduplication of a list. -/
def dedupFirst (xs : List String) : List String :=
  dedupFirstAux [] xs

/-- The model produced no decodable structured intent: the regex found no
object-like substring, or the matched substring is not valid JSON. -/
def noDecodableIntent (t : String) : Prop :=
  regexObjMatch t = none
    ∨ ∃ s e, regexObjMatch t = some s ∧ jsonLoads s = .error e

/-- A valid `structured` JSON object, as `_parse_json_from_response`
would decode it. -/
def structuredJsonText : String :=
  "\x7b\"intent\": \"structured\", \"query\": \"SELECT 1\"\x7d"

/-- `structuredJsonText` followed by trailing text that contains a further
closing brace: the greedy regex extends the match past the object. -/
def trailCloseText : String :=
  structuredJsonText ++ " Also see \x7bthe notes\x7d."

/-- `structuredJsonText` followed by trailing text whose only brace is an
opening one: the greedy match still ends at the object's own `\x7d`. -/
def trailOpenText : String :=
  structuredJsonText ++ " see \x7bthe notes"

/-- A character that cannot extend a number lexeme nor begin its fraction
or exponent part. -/
def stopsNumber (c : Char) : Bool :=
  !(c.isDigit) && !(c = '.') && !(c = 'e') && !(c = 'E')

/-- The list is nonempty and its head stops a number lexeme. -/
def safeRest : List Char → Bool
  | [] => false
  | c :: _ => stopsNumber c

/-- The trailing text cut down to its last closing brace (what the greedy
regex keeps of it). -/
def trimToLastClose (T : String) : String :=
  ((T.toList.reverse.dropWhile (fun c => c ≠ '\x7d')).reverse).asString

/-- A retrieval environment whose sentence-transformer singleton failed to
load (`model is None`). -/
def vecEnvNoModel : VecEnv :=
  ⟨false, true, .ok ["ignored"], false, true, .ok ["ignored"]⟩

/-- A fully healthy retrieval environment with three vector rows and an
overlapping keyword row. -/
def vecEnvHealthy : VecEnv :=
  ⟨true, true, .ok ["A", "B", "C"], false, true, .ok ["B", "D", "E"]⟩

/-- A retrieval environment whose vector stage raises and whose keyword
stage returns rows with a duplicate. -/
def vecEnvVectorFails : VecEnv :=
  ⟨true, true, .error (), false, true, .ok ["B", "D", "E"]⟩

/-- A retrieval environment in which both stages raise. -/
def vecEnvBothFail : VecEnv :=
  ⟨true, true, .error (), false, true, .error ()⟩

/-- A benign relational environment. -/
def relEnvBenign : RelEnv :=
  ⟨true, .ok (some [["row one"], ["row two"]])⟩

/-- A pipeline environment whose model always answers with plain text
("alpha response") containing no braces. -/
def pipeEnvAlpha : PipeEnv :=
  ⟨fun _ => .ok ⟨"alpha response", none⟩, relEnvBenign, vecEnvHealthy⟩

/-- Like `pipeEnvAlpha` with a different plain-text answer. -/
def pipeEnvBeta : PipeEnv :=
  ⟨fun _ => .ok ⟨"beta response", none⟩, relEnvBenign, vecEnvHealthy⟩

/-- A pipeline environment whose model always answers with a well-formed
`structured` JSON object. -/
def pipeEnvStructured : PipeEnv :=
  ⟨fun _ => .ok ⟨structuredJsonText, none⟩, relEnvBenign, vecEnvHealthy⟩

/-! ## Theorems -/

/-! ### Extension lemmas for the JSON decoder

A successful parse from a prefix extends to the same parse of the prefix
followed by extra characters, provided the rest the parser returned starts
with a character that cannot continue a number lexeme (or the value was an
object at top level, whose parse ends at its closing brace without
lookahead).  These drive the analysis of the greedy regex span. -/

theorem skipWs_append_of_ne_nil {a : List Char} (b : List Char) (h : skipWs a ≠ []) :
    skipWs (a ++ b) = skipWs a ++ b := by
  induction a with
  | nil => simp [skipWs] at h
  | cons c t ih =>
    by_cases hc : isJsonWs c
    · have h' : skipWs t ≠ [] := by simpa [skipWs, hc] using h
      simp [skipWs, hc, ih h']
    · simp [skipWs, hc]

theorem skipWs_append_of_eq_nil {a : List Char} (b : List Char) (h : skipWs a = []) :
    skipWs (a ++ b) = skipWs b := by
  induction a with
  | nil => simp
  | cons c t ih =>
    by_cases hc : isJsonWs c
    · have h' : skipWs t = [] := by simpa [skipWs, hc] using h
      simp [skipWs, hc, ih h']
    · simp [skipWs, hc] at h

theorem skipWs_ne_nil_of_mem {l : List Char} {c : Char}
    (hm : c ∈ l) (hw : isJsonWs c = false) : skipWs l ≠ [] := by
  induction l with
  | nil => simp at hm
  | cons d t ih =>
    by_cases hd : isJsonWs d
    · rcases List.mem_cons.mp hm with h | h
      · subst h; rw [hw] at hd; exact absurd hd (by simp)
      · simpa [skipWs, hd] using ih h
    · simp [skipWs, hd]

theorem span_append {p : Char → Bool} {cs ds rest : List Char} (ex : List Char)
    (h : cs.span p = (ds, rest)) (hne : rest ≠ []) :
    (cs ++ ex).span p = (ds, rest ++ ex) := by
  rw [List.span_eq_take_drop] at h ⊢
  injection h with h1 h2
  have hdw : (cs.dropWhile p).isEmpty = false := by
    rw [h2]
    simpa [List.isEmpty_iff] using hne
  have hlen : (cs.takeWhile p).length ≠ cs.length := by
    intro hcontra
    have hsplit := List.takeWhile_append_dropWhile p cs
    have hL : (cs.takeWhile p).length + (cs.dropWhile p).length = cs.length := by
      rw [← List.length_append, hsplit]
    have hz : (cs.dropWhile p).length = 0 := by omega
    rw [List.length_eq_zero] at hz
    rw [hz] at hdw
    simp at hdw
  have hT : (cs ++ ex).takeWhile p = ds := by
    rw [List.takeWhile_append, if_neg hlen, h1]
  have hD : (cs ++ ex).dropWhile p = rest ++ ex := by
    rw [List.dropWhile_append, hdw]
    simp [h2]
  rw [hT, hD]

theorem matchLiteral_append {lit cs r : List Char} (ex : List Char)
    (h : matchLiteral lit cs = some r) : matchLiteral lit (cs ++ ex) = some (r ++ ex) := by
  induction lit generalizing cs with
  | nil =>
    simp [matchLiteral] at h
    subst h
    simp [matchLiteral]
  | cons c p ih =>
    cases cs with
    | nil => simp [matchLiteral] at h
    | cons d t =>
      by_cases hd : d = c
      · rw [List.cons_append]
        rw [matchLiteral, if_pos hd] at h ⊢
        exact ih h
      · rw [matchLiteral, if_neg hd] at h
        exact absurd h (by simp)

theorem parseHex4_append {cs : List Char} {n : Nat} {t : List Char} (ex : List Char)
    (h : parseHex4 cs = some (n, t)) : parseHex4 (cs ++ ex) = some (n, t ++ ex) := by
  match cs with
  | [] => simp [parseHex4] at h
  | [a] => simp [parseHex4] at h
  | [a, b] => simp [parseHex4] at h
  | [a, b, c] => simp [parseHex4] at h
  | a :: b :: c :: d :: rest =>
    simp only [List.cons_append]
    rw [parseHex4] at h ⊢
    cases h1 : hexVal? a <;> cases h2 : hexVal? b <;> cases h3 : hexVal? c <;>
      cases h4 : hexVal? d <;> simp [h1, h2, h3, h4] at h ⊢
    exact ⟨h.1, h.2 ▸ rfl⟩

theorem parseValue_nil_eq (fuel : Nat) : ∃ e, parseValue fuel [] = .error e := by
  cases fuel <;> exact ⟨_, rfl⟩

theorem parseMembers_nil_eq (fuel : Nat) (acc : List (String × JValue)) :
    ∃ e, parseMembers fuel [] acc = .error e := by
  cases fuel <;> exact ⟨_, rfl⟩

theorem parseItems_nil_eq (fuel : Nat) (acc : List JValue) :
    ∃ e, parseItems fuel [] acc = .error e := by
  cases fuel with
  | zero => exact ⟨_, rfl⟩
  | succ f =>
    obtain ⟨e, he⟩ := parseValue_nil_eq f
    exact ⟨e, by rw [parseItems, he]⟩

theorem isJsonWs_stopsNumber {c : Char} (h : isJsonWs c = true) : stopsNumber c = true := by
  simp only [isJsonWs, Bool.or_eq_true, decide_eq_true_eq] at h
  rcases h with ((h | h) | h) | h <;> subst h <;> decide

theorem safeRest_of_skipWs {rest : List Char} {c : Char} {r : List Char}
    (h : skipWs rest = c :: r) (hc : stopsNumber c = true) : safeRest rest = true := by
  cases rest with
  | nil => simp [skipWs] at h
  | cons d t =>
    by_cases hd : isJsonWs d
    · exact isJsonWs_stopsNumber hd
    · rw [skipWs, if_neg hd] at h
      injection h with h1 _
      subst h1
      exact hc

theorem expSplit_append {rest1 ep rest2 : List Char} (ex : List Char)
    (h : expSplit rest1 = (ep, rest2)) (hs : safeRest rest2 = true) :
    expSplit (rest1 ++ ex) = (ep, rest2 ++ ex) := by
  cases rest1 with
  | nil =>
    simp only [expSplit] at h
    injection h with h1 h2
    subst h2
    simp [safeRest] at hs
  | cons e r =>
    by_cases he : e = 'e' ∨ e = 'E'
    · rw [List.cons_append]
      simp only [expSplit] at h
      simp only [expSplit]
      rw [if_pos he] at h ⊢
      cases r with
      | nil =>
        dsimp only at h
        simp only [List.span_eq_take_drop, List.takeWhile_nil, List.dropWhile_nil,
          List.isEmpty_nil, if_pos] at h
        injection h with h1 h2
        subst h2
        have hstop : stopsNumber e = true := hs
        rcases he with he | he <;> subst he <;> simp [stopsNumber] at hstop
      | cons s1 r2 =>
        rw [List.cons_append] at *
        by_cases hsgn : s1 = '+' ∨ s1 = '-'
        · dsimp only at h ⊢
          rw [if_pos hsgn] at h ⊢
          rcases hsp : r2.span Char.isDigit with ⟨ds, r3⟩
          rw [hsp] at h
          dsimp only at h
          by_cases hds : ds.isEmpty
          · rw [if_pos hds] at h
            injection h with h1 h2
            subst h2
            have hstop : stopsNumber e = true := hs
            rcases he with he | he <;> subst he <;> simp [stopsNumber] at hstop
          · rw [if_neg hds] at h
            injection h with h1 h2
            subst h1; subst h2
            have hr3 : r3 ≠ [] := by
              intro hcontra
              subst hcontra
              simp [safeRest] at hs
            rw [span_append ex hsp hr3]
            dsimp only
            rw [if_neg hds]
        · dsimp only at h ⊢
          rw [if_neg hsgn] at h ⊢
          rcases hsp : (s1 :: r2).span Char.isDigit with ⟨ds, r3⟩
          rw [hsp] at h
          dsimp only at h
          by_cases hds : ds.isEmpty
          · rw [if_pos hds] at h
            injection h with h1 h2
            subst h2
            have hstop : stopsNumber e = true := hs
            rcases he with he | he <;> subst he <;> simp [stopsNumber] at hstop
          · rw [if_neg hds] at h
            injection h with h1 h2
            subst h1; subst h2
            have hr3 : r3 ≠ [] := by
              intro hcontra
              subst hcontra
              simp [safeRest] at hs
            have hspx := span_append ex hsp hr3
            rw [List.cons_append] at hspx
            rw [hspx]
            dsimp only
            rw [if_neg hds]
    · rw [List.cons_append]
      simp only [expSplit] at h
      simp only [expSplit]
      rw [if_neg he] at h ⊢
      injection h with h1 h2
      subst h1; subst h2
      simp

theorem fracSplit_append {rest frac rest1 ep rest2 : List Char} (ex : List Char)
    (h : fracSplit rest = (frac, rest1)) (h2 : expSplit rest1 = (ep, rest2))
    (hs : safeRest rest2 = true) :
    fracSplit (rest ++ ex) = (frac, rest1 ++ ex) := by
  cases rest with
  | nil =>
    simp only [fracSplit] at h
    injection h with ha hb
    subst hb
    simp only [expSplit] at h2
    injection h2 with hc hd
    subst hd
    simp [safeRest] at hs
  | cons d r =>
    by_cases hd : d = '.'
    · subst hd
      rw [List.cons_append]
      simp only [fracSplit, if_true] at h
      simp only [fracSplit, if_true]
      rcases hsp : r.span Char.isDigit with ⟨ds, rr⟩
      rw [hsp] at h
      dsimp only at h
      by_cases hds : ds.isEmpty
      · rw [if_pos hds] at h
        injection h with ha hb
        subst hb
        simp only [expSplit] at h2
        rw [if_neg (by decide : ¬('.' = 'e' ∨ '.' = 'E'))] at h2
        injection h2 with hc hd2
        subst hd2
        simp [safeRest, stopsNumber] at hs
      · rw [if_neg hds] at h
        injection h with ha hb
        subst ha; subst hb
        have hrr : rr ≠ [] := by
          intro hcontra
          subst hcontra
          simp only [expSplit] at h2
          injection h2 with hc hd2
          subst hd2
          simp [safeRest] at hs
        rw [span_append ex hsp hrr]
        dsimp only
        rw [if_neg hds]
    · rw [List.cons_append]
      simp only [fracSplit] at h
      simp only [fracSplit]
      rw [if_neg hd] at h ⊢
      injection h with ha hb
      subst ha; subst hb
      simp

theorem numTail_append {neg ip rest : List Char} {s : String} {rest2 : List Char}
    (ex : List Char) (h : numTail neg ip rest = .ok (s, rest2))
    (hs : safeRest rest2 = true) :
    numTail neg ip (rest ++ ex) = .ok (s, rest2 ++ ex) := by
  rcases hf : fracSplit rest with ⟨frac, rest1⟩
  rcases he : expSplit rest1 with ⟨ep, r2⟩
  simp only [numTail, hf, he] at h
  injection h with h'
  injection h' with h1 h2
  subst h1; subst h2
  simp only [numTail, fracSplit_append ex hf he hs, expSplit_append ex he hs]

theorem numTail_nil_rest {neg ip : List Char} {s : String} {rest2 : List Char}
    (h : numTail neg ip [] = .ok (s, rest2)) : rest2 = [] := by
  simp only [numTail, fracSplit, expSplit] at h
  injection h with h'
  injection h' with h1 h2
  exact h2.symm

theorem parseNumberLex_append {cs : List Char} {s : String} {rest : List Char}
    (ex : List Char) (h : parseNumberLex cs = .ok (s, rest))
    (hs : safeRest rest = true) :
    parseNumberLex (cs ++ ex) = .ok (s, rest ++ ex) := by
  cases cs with
  | nil => simp [parseNumberLex] at h
  | cons c t =>
    by_cases hc : c = '-'
    · subst hc
      rw [List.cons_append]
      simp only [parseNumberLex, if_true] at h
      simp only [parseNumberLex, if_true]
      cases t with
      | nil => simp at h
      | cons c1 t1 =>
        rw [List.cons_append]
        dsimp only at h ⊢
        by_cases hc1 : c1 = '0'
        · rw [if_pos hc1] at h ⊢
          exact numTail_append ex h hs
        · rw [if_neg hc1] at h ⊢
          by_cases hdig : c1.isDigit = true
          · rw [if_pos hdig] at h ⊢
            rcases hsp : (c1 :: t1).span Char.isDigit with ⟨ds, rst⟩
            rw [hsp] at h
            dsimp only at h
            have hrst : rst ≠ [] := by
              intro hcontra
              subst hcontra
              rw [numTail_nil_rest h] at hs
              simp [safeRest] at hs
            have hspx := span_append ex hsp hrst
            rw [List.cons_append] at hspx
            rw [hspx]
            dsimp only
            exact numTail_append ex h hs
          · rw [if_neg hdig] at h
            simp at h
    · rw [List.cons_append]
      simp only [parseNumberLex] at h
      simp only [parseNumberLex]
      rw [if_neg hc] at h ⊢
      dsimp only at h ⊢
      by_cases hc0 : c = '0'
      · rw [if_pos hc0] at h ⊢
        exact numTail_append ex h hs
      · rw [if_neg hc0] at h ⊢
        by_cases hdig : c.isDigit = true
        · rw [if_pos hdig] at h ⊢
          rcases hsp : (c :: t).span Char.isDigit with ⟨ds, rst⟩
          rw [hsp] at h
          dsimp only at h
          have hrst : rst ≠ [] := by
            intro hcontra
            subst hcontra
            rw [numTail_nil_rest h] at hs
            simp [safeRest] at hs
          have hspx := span_append ex hsp hrst
          rw [List.cons_append] at hspx
          rw [hspx]
          dsimp only
          exact numTail_append ex h hs
        · rw [if_neg hdig] at h
          simp at h

theorem parseStringBody_cons (f : Nat) (c : Char) (t acc : List Char) :
    parseStringBody (f + 1) (c :: t) acc
      = (if c = '"' then .ok (acc.reverse.asString, t)
         else if c = '\\' then
           (match t with
            | [] => .error "Unterminated string"
            | e :: t2 =>
              if e = '"' then parseStringBody f t2 ('"' :: acc)
              else if e = '\\' then parseStringBody f t2 ('\\' :: acc)
              else if e = '/' then parseStringBody f t2 ('/' :: acc)
              else if e = 'b' then parseStringBody f t2 ('\x08' :: acc)
              else if e = 'f' then parseStringBody f t2 ('\x0c' :: acc)
              else if e = 'n' then parseStringBody f t2 ('\n' :: acc)
              else if e = 'r' then parseStringBody f t2 ('\r' :: acc)
              else if e = 't' then parseStringBody f t2 ('\t' :: acc)
              else if e = 'u' then
                match parseHex4 t2 with
                | none => .error "Invalid \\uXXXX escape"
                | some (v, t3) =>
                  if 0xD800 ≤ v ∧ v ≤ 0xDBFF then
                    match t3 with
                    | a :: b :: rest =>
                      if a = '\\' ∧ b = 'u' then
                        match parseHex4 rest with
                        | some (w, t4) =>
                          if 0xDC00 ≤ w ∧ w ≤ 0xDFFF then
                            parseStringBody f t4
                              (Char.ofNat (0x10000 + (v - 0xD800) * 0x400 + (w - 0xDC00)) :: acc)
                          else parseStringBody f t3 (Char.ofNat v :: acc)
                        | none => parseStringBody f t3 (Char.ofNat v :: acc)
                      else parseStringBody f t3 (Char.ofNat v :: acc)
                    | _ => parseStringBody f t3 (Char.ofNat v :: acc)
                  else parseStringBody f t3 (Char.ofNat v :: acc)
              else .error "Invalid escape")
         else if c.toNat < 0x20 then .error "Invalid control character"
         else parseStringBody f t (c :: acc)) := rfl

theorem parseStringBody_nil (f : Nat) (acc : List Char) :
    ∃ e, parseStringBody f [] acc = .error e := by
  cases f <;> exact ⟨_, rfl⟩

theorem parseStringBody_backslash_nil (f : Nat) (acc : List Char) :
    ∃ e, parseStringBody f ['\\'] acc = .error e := by
  cases f with
  | zero => exact ⟨"fuel exhausted", rfl⟩
  | succ f => exact ⟨"Unterminated string", by rw [parseStringBody_cons]; rfl⟩

theorem parseStringBody_bad_u (f : Nat) (rest acc : List Char)
    (hh : parseHex4 rest = none) :
    ∃ e, parseStringBody f ('\\' :: 'u' :: rest) acc = .error e := by
  cases f with
  | zero => exact ⟨"fuel exhausted", rfl⟩
  | succ f =>
    refine ⟨"Invalid \\uXXXX escape", ?_⟩
    rw [parseStringBody_cons]
    simp [hh]

theorem parseStringBody_append (f : Nat) :
    ∀ (k : Nat) (cs acc ex : List Char) (s : String) (rest : List Char),
      parseStringBody f cs acc = .ok (s, rest) →
      parseStringBody (f + k) (cs ++ ex) acc = .ok (s, rest ++ ex) := by
  induction f with
  | zero =>
    intro k cs acc ex s rest h
    simp [parseStringBody] at h
  | succ f ih =>
    intro k cs acc ex s rest h
    rw [show f + 1 + k = (f + k) + 1 by omega]
    cases cs with
    | nil => simp [parseStringBody] at h
    | cons c t =>
      rw [List.cons_append]
      rw [parseStringBody_cons] at h ⊢
      by_cases hq : c = '"'
      · rw [if_pos hq] at h ⊢
        injection h with h'
        injection h' with h1 h2
        subst h1; subst h2
        rfl
      · rw [if_neg hq] at h ⊢
        by_cases hbs : c = '\\'
        · rw [if_pos hbs] at h ⊢
          cases t with
          | nil => simp at h
          | cons e t2 =>
            rw [List.cons_append]
            dsimp only at h ⊢
            by_cases he1 : e = '"'
            · rw [if_pos he1] at h ⊢; exact ih k t2 _ ex s rest h
            · rw [if_neg he1] at h ⊢
              by_cases he2 : e = '\\'
              · rw [if_pos he2] at h ⊢; exact ih k t2 _ ex s rest h
              · rw [if_neg he2] at h ⊢
                by_cases he3 : e = '/'
                · rw [if_pos he3] at h ⊢; exact ih k t2 _ ex s rest h
                · rw [if_neg he3] at h ⊢
                  by_cases he4 : e = 'b'
                  · rw [if_pos he4] at h ⊢; exact ih k t2 _ ex s rest h
                  · rw [if_neg he4] at h ⊢
                    by_cases he5 : e = 'f'
                    · rw [if_pos he5] at h ⊢; exact ih k t2 _ ex s rest h
                    · rw [if_neg he5] at h ⊢
                      by_cases he6 : e = 'n'
                      · rw [if_pos he6] at h ⊢; exact ih k t2 _ ex s rest h
                      · rw [if_neg he6] at h ⊢
                        by_cases he7 : e = 'r'
                        · rw [if_pos he7] at h ⊢; exact ih k t2 _ ex s rest h
                        · rw [if_neg he7] at h ⊢
                          by_cases he8 : e = 't'
                          · rw [if_pos he8] at h ⊢; exact ih k t2 _ ex s rest h
                          · rw [if_neg he8] at h ⊢
                            by_cases he9 : e = 'u'
                            · rw [if_pos he9] at h ⊢
                              cases hh : parseHex4 t2 with
                              | none => rw [hh] at h; simp at h
                              | some p =>
                                rcases p with ⟨v, t3⟩
                                rw [hh] at h
                                rw [parseHex4_append ex hh]
                                dsimp only at h ⊢
                                by_cases hsur : 0xD800 ≤ v ∧ v ≤ 0xDBFF
                                · rw [if_pos hsur] at h ⊢
                                  cases t3 with
                                  | nil =>
                                    obtain ⟨e0, he0⟩ := parseStringBody_nil f (Char.ofNat v :: acc)
                                    rw [he0] at h
                                    simp at h
                                  | cons a t3' =>
                                    cases t3' with
                                    | nil =>
                                      -- original: the single-character catch-all branch
                                      by_cases ha : a = '\\'
                                      · subst ha
                                        obtain ⟨e0, he0⟩ :=
                                          parseStringBody_backslash_nil f (Char.ofNat v :: acc)
                                        rw [he0] at h
                                        simp at h
                                      · cases ex with
                                        | nil =>
                                          simpa using ih k [a] (Char.ofNat v :: acc) [] s rest h
                                        | cons b ex' =>
                                          rw [List.cons_append, List.nil_append]
                                          dsimp only at h ⊢
                                          rw [if_neg (fun hab => ha hab.1)]
                                          have := ih k [a] (Char.ofNat v :: acc) (b :: ex') s rest h
                                          simpa using this
                                    | cons b rest' =>
                                      rw [List.cons_append, List.cons_append] at *
                                      dsimp only at h ⊢
                                      by_cases hab : a = '\\' ∧ b = 'u'
                                      · rw [if_pos hab] at h ⊢
                                        cases hh2 : parseHex4 rest' with
                                        | none =>
                                          rw [hh2] at h
                                          obtain ⟨ha, hb⟩ := hab
                                          subst ha; subst hb
                                          obtain ⟨e0, he0⟩ :=
                                            parseStringBody_bad_u f rest' (Char.ofNat v :: acc) hh2
                                          rw [he0] at h
                                          simp at h
                                        | some q =>
                                          rcases q with ⟨w, t4⟩
                                          rw [hh2] at h
                                          rw [parseHex4_append ex hh2]
                                          dsimp only at h ⊢
                                          by_cases hw : 0xDC00 ≤ w ∧ w ≤ 0xDFFF
                                          · rw [if_pos hw] at h ⊢
                                            exact ih k t4 _ ex s rest h
                                          · rw [if_neg hw] at h ⊢
                                            have := ih k (a :: b :: rest') (Char.ofNat v :: acc)
                                              ex s rest h
                                            simpa using this
                                      · rw [if_neg hab] at h ⊢
                                        have := ih k (a :: b :: rest') (Char.ofNat v :: acc)
                                          ex s rest h
                                        simpa using this
                                · rw [if_neg hsur] at h ⊢
                                  exact ih k t3 _ ex s rest h
                            · rw [if_neg he9] at h ⊢
                              simp at h
        · rw [if_neg hbs] at h ⊢
          by_cases hctl : c.toNat < 0x20
          · rw [if_pos hctl] at h
            simp at h
          · rw [if_neg hctl] at h ⊢
            exact ih k t _ ex s rest h


theorem parseValue_cons (fuel : Nat) (c : Char) (t : List Char) :
    parseValue (fuel + 1) (c :: t)
      = (if c = '\x7b' then
           match skipWs t with
           | d :: t2 => if d = '\x7d' then .ok (.obj [], t2) else parseMembers fuel (d :: t2) []
           | [] => parseMembers fuel [] []
         else if c = '[' then
           match skipWs t with
           | d :: t2 => if d = ']' then .ok (.arr [], t2) else parseItems fuel (d :: t2) []
           | [] => parseItems fuel [] []
         else if c = '"' then
           match parseStringBody (t.length + 1) t [] with
           | .error e => .error e
           | .ok (s, r) => .ok (.str s, r)
         else if c = 't' then
           match matchLiteral ['r', 'u', 'e'] t with
           | some r => .ok (.bool true, r)
           | none => parseNumberValue (c :: t)
         else if c = 'f' then
           match matchLiteral ['a', 'l', 's', 'e'] t with
           | some r => .ok (.bool false, r)
           | none => parseNumberValue (c :: t)
         else if c = 'n' then
           match matchLiteral ['u', 'l', 'l'] t with
           | some r => .ok (.null, r)
           | none => parseNumberValue (c :: t)
         else if c = 'N' then
           match matchLiteral ['a', 'N'] t with
           | some r => .ok (.num "NaN", r)
           | none => parseNumberValue (c :: t)
         else if c = 'I' then
           match matchLiteral ['n', 'f', 'i', 'n', 'i', 't', 'y'] t with
           | some r => .ok (.num "Infinity", r)
           | none => parseNumberValue (c :: t)
         else if c = '-' then
           match matchLiteral ['I', 'n', 'f', 'i', 'n', 'i', 't', 'y'] t with
           | some r => .ok (.num "-Infinity", r)
           | none => parseNumberValue (c :: t)
         else parseNumberValue (c :: t)) := rfl

theorem parseMembers_cons (fuel : Nat) (c : Char) (t : List Char)
    (acc : List (String × JValue)) :
    parseMembers (fuel + 1) (c :: t) acc
      = (if c = '"' then
           match parseStringBody (t.length + 1) t [] with
           | .error e => .error e
           | .ok (key, r1) =>
             match skipWs r1 with
             | d :: r2 =>
               if d = ':' then
                 match parseValue fuel (skipWs r2) with
                 | .error e => .error e
                 | .ok (v, r3) =>
                   match skipWs r3 with
                   | d2 :: r4 =>
                     if d2 = ',' then parseMembers fuel (skipWs r4) (acc ++ [(key, v)])
                     else if d2 = '\x7d' then .ok (.obj (acc ++ [(key, v)]), r4)
                     else .error "Expecting comma delimiter"
                   | [] => .error "Expecting comma delimiter"
               else .error "Expecting colon delimiter"
             | [] => .error "Expecting colon delimiter"
         else .error "Expecting property name enclosed in double quotes") := rfl

theorem parseItems_succ (fuel : Nat) (cs : List Char) (acc : List JValue) :
    parseItems (fuel + 1) cs acc
      = (match parseValue fuel cs with
         | .error e => .error e
         | .ok (v, r1) =>
           match skipWs r1 with
           | d :: r2 =>
             if d = ',' then parseItems fuel (skipWs r2) (acc ++ [v])
             else if d = ']' then .ok (.arr (acc ++ [v]), r2)
             else .error "Expecting comma delimiter"
           | [] => .error "Expecting comma delimiter") := rfl

theorem parseNumberValue_append {cs : List Char} {v : JValue} {rest : List Char}
    (ex : List Char) (h : parseNumberValue cs = .ok (v, rest))
    (hs : safeRest rest = true) :
    parseNumberValue (cs ++ ex) = .ok (v, rest ++ ex) := by
  cases hlex : parseNumberLex cs with
  | error e =>
    simp only [parseNumberValue, hlex] at h
    exact absurd h (by simp)
  | ok p =>
    rcases p with ⟨s0, r0⟩
    simp only [parseNumberValue, hlex] at h
    injection h with h'
    injection h' with h1 h2
    subst h1; subst h2
    simp only [parseNumberValue, parseNumberLex_append ex hlex hs]

theorem parseExtension (fuel : Nat) :
    (∀ (k : Nat) (cs ex : List Char) (v : JValue) (rest : List Char),
        parseValue fuel cs = .ok (v, rest) →
        (safeRest rest = true ∨ ∃ t0, cs = '\x7b' :: t0) →
        parseValue (fuel + k) (cs ++ ex) = .ok (v, rest ++ ex))
    ∧ (∀ (k : Nat) (cs ex : List Char) (acc : List (String × JValue)) (v : JValue)
          (rest : List Char),
        parseMembers fuel cs acc = .ok (v, rest) →
        parseMembers (fuel + k) (cs ++ ex) acc = .ok (v, rest ++ ex))
    ∧ (∀ (k : Nat) (cs ex : List Char) (acc : List JValue) (v : JValue)
          (rest : List Char),
        parseItems fuel cs acc = .ok (v, rest) →
        parseItems (fuel + k) (cs ++ ex) acc = .ok (v, rest ++ ex)) := by
  induction fuel with
  | zero =>
    refine ⟨?_, ?_, ?_⟩ <;> intro k cs ex
    · intro v rest h _
      simp [parseValue] at h
    · intro acc v rest h
      simp [parseMembers] at h
    · intro acc v rest h
      simp [parseItems] at h
  | succ fuel ih =>
    obtain ⟨ihV, ihM, ihI⟩ := ih
    refine ⟨?_, ?_, ?_⟩
    -- parseValue
    · intro k cs ex v rest h hsafe
      rw [Nat.add_right_comm fuel 1 k]
      cases cs with
      | nil =>
        obtain ⟨e, he⟩ := parseValue_nil_eq (fuel + 1)
        rw [he] at h
        simp at h
      | cons c t =>
        rw [List.cons_append]
        rw [parseValue_cons] at h
        rw [parseValue_cons]
        by_cases hb : c = '\x7b'
        · rw [if_pos hb] at h ⊢
          cases hsw : skipWs t with
          | nil =>
            rw [hsw] at h
            obtain ⟨e, he⟩ := parseMembers_nil_eq fuel []
            rw [he] at h
            simp at h
          | cons d t2 =>
            rw [hsw] at h
            have hswx : skipWs (t ++ ex) = d :: (t2 ++ ex) := by
              rw [skipWs_append_of_ne_nil ex (by rw [hsw]; simp), hsw, List.cons_append]
            rw [hswx]
            dsimp only at h ⊢
            by_cases hd : d = '\x7d'
            · rw [if_pos hd] at h ⊢
              injection h with h'
              injection h' with h1 h2
              subst h1; subst h2
              rfl
            · rw [if_neg hd] at h ⊢
              have := ihM k (d :: t2) ex [] v rest h
              rwa [List.cons_append] at this
        · rw [if_neg hb] at h ⊢
          have hsr : safeRest rest = true := by
            rcases hsafe with hs | ⟨t0, ht0⟩
            · exact hs
            · injection ht0 with h1 _
              exact absurd h1 hb
          by_cases harr : c = '['
          · rw [if_pos harr] at h ⊢
            cases hsw : skipWs t with
            | nil =>
              rw [hsw] at h
              obtain ⟨e, he⟩ := parseItems_nil_eq fuel []
              rw [he] at h
              simp at h
            | cons d t2 =>
              rw [hsw] at h
              have hswx : skipWs (t ++ ex) = d :: (t2 ++ ex) := by
                rw [skipWs_append_of_ne_nil ex (by rw [hsw]; simp), hsw, List.cons_append]
              rw [hswx]
              dsimp only at h ⊢
              by_cases hd : d = ']'
              · rw [if_pos hd] at h ⊢
                injection h with h'
                injection h' with h1 h2
                subst h1; subst h2
                rfl
              · rw [if_neg hd] at h ⊢
                have := ihI k (d :: t2) ex [] v rest h
                rwa [List.cons_append] at this
          · rw [if_neg harr] at h ⊢
            by_cases hq : c = '"'
            · rw [if_pos hq] at h ⊢
              cases hps : parseStringBody (t.length + 1) t [] with
              | error e =>
                rw [hps] at h
                simp at h
              | ok p =>
                rcases p with ⟨s0, r0⟩
                rw [hps] at h
                dsimp only at h
                injection h with h'
                injection h' with h1 h2
                subst h1; subst h2
                have hlen : (t ++ ex).length + 1 = (t.length + 1) + ex.length := by
                  rw [List.length_append]; omega
                rw [hlen, parseStringBody_append (t.length + 1) ex.length t [] ex s0 r0 hps]
            · rw [if_neg hq] at h ⊢
              by_cases hkt : c = 't'
              · rw [if_pos hkt] at h ⊢
                cases hml : matchLiteral ['r', 'u', 'e'] t with
                | some r0 =>
                  rw [hml] at h
                  rw [matchLiteral_append ex hml]
                  injection h with h'
                  injection h' with h1 h2
                  subst h1; subst h2
                  rfl
                | none =>
                  rw [hml] at h
                  subst hkt
                  exact absurd h (by simp [parseNumberValue, parseNumberLex])
              · rw [if_neg hkt] at h ⊢
                by_cases hkf : c = 'f'
                · rw [if_pos hkf] at h ⊢
                  cases hml : matchLiteral ['a', 'l', 's', 'e'] t with
                  | some r0 =>
                    rw [hml] at h
                    rw [matchLiteral_append ex hml]
                    injection h with h'
                    injection h' with h1 h2
                    subst h1; subst h2
                    rfl
                  | none =>
                    rw [hml] at h
                    subst hkf
                    exact absurd h (by simp [parseNumberValue, parseNumberLex])
                · rw [if_neg hkf] at h ⊢
                  by_cases hkn : c = 'n'
                  · rw [if_pos hkn] at h ⊢
                    cases hml : matchLiteral ['u', 'l', 'l'] t with
                    | some r0 =>
                      rw [hml] at h
                      rw [matchLiteral_append ex hml]
                      injection h with h'
                      injection h' with h1 h2
                      subst h1; subst h2
                      rfl
                    | none =>
                      rw [hml] at h
                      subst hkn
                      exact absurd h (by simp [parseNumberValue, parseNumberLex])
                  · rw [if_neg hkn] at h ⊢
                    by_cases hkN : c = 'N'
                    · rw [if_pos hkN] at h ⊢
                      cases hml : matchLiteral ['a', 'N'] t with
                      | some r0 =>
                        rw [hml] at h
                        rw [matchLiteral_append ex hml]
                        injection h with h'
                        injection h' with h1 h2
                        subst h1; subst h2
                        rfl
                      | none =>
                        rw [hml] at h
                        subst hkN
                        exact absurd h (by simp [parseNumberValue, parseNumberLex])
                    · rw [if_neg hkN] at h ⊢
                      by_cases hkI : c = 'I'
                      · rw [if_pos hkI] at h ⊢
                        cases hml : matchLiteral ['n', 'f', 'i', 'n', 'i', 't', 'y'] t with
                        | some r0 =>
                          rw [hml] at h
                          rw [matchLiteral_append ex hml]
                          injection h with h'
                          injection h' with h1 h2
                          subst h1; subst h2
                          rfl
                        | none =>
                          rw [hml] at h
                          subst hkI
                          exact absurd h (by simp [parseNumberValue, parseNumberLex])
                      · rw [if_neg hkI] at h ⊢
                        by_cases hkm : c = '-'
                        · rw [if_pos hkm] at h ⊢
                          cases hml : matchLiteral ['I', 'n', 'f', 'i', 'n', 'i', 't', 'y'] t with
                          | some r0 =>
                            rw [hml] at h
                            rw [matchLiteral_append ex hml]
                            injection h with h'
                            injection h' with h1 h2
                            subst h1; subst h2
                            rfl
                          | none =>
                            rw [hml] at h
                            subst hkm
                            cases t with
                            | nil =>
                              exact absurd h (by simp [parseNumberValue, parseNumberLex])
                            | cons c1 t1 =>
                              have hc1 : c1 = '0' ∨ c1.isDigit = true := by
                                by_contra hcon
                                push_neg at hcon
                                obtain ⟨h0, hdg⟩ := hcon
                                exact absurd h
                                  (by simp [parseNumberValue, parseNumberLex, h0, hdg])
                              have hc1I : ¬(c1 = 'I') := by
                                rcases hc1 with h0 | hdg
                                · subst h0; decide
                                · intro hI
                                  subst hI
                                  simp at hdg
                              have hmlx : matchLiteral ['I', 'n', 'f', 'i', 'n', 'i', 't', 'y']
                                  ((c1 :: t1) ++ ex) = none := by
                                rw [List.cons_append, matchLiteral, if_neg hc1I]
                              rw [hmlx]
                              dsimp only
                              have hext := parseNumberValue_append ex h hsr
                              rwa [List.cons_append] at hext
                        · rw [if_neg hkm] at h ⊢
                          exact parseNumberValue_append ex h hsr
    -- parseMembers
    · intro k cs ex acc v rest h
      rw [Nat.add_right_comm fuel 1 k]
      cases cs with
      | nil =>
        obtain ⟨e, he⟩ := parseMembers_nil_eq (fuel + 1) acc
        rw [he] at h
        simp at h
      | cons c t =>
        rw [List.cons_append]
        rw [parseMembers_cons] at h
        rw [parseMembers_cons]
        by_cases hq : c = '"'
        · rw [if_pos hq] at h ⊢
          cases hps : parseStringBody (t.length + 1) t [] with
          | error e =>
            rw [hps] at h
            simp at h
          | ok p =>
            rcases p with ⟨key, r1⟩
            rw [hps] at h
            dsimp only at h
            have hlen : (t ++ ex).length + 1 = (t.length + 1) + ex.length := by
              rw [List.length_append]; omega
            rw [hlen, parseStringBody_append (t.length + 1) ex.length t [] ex key r1 hps]
            dsimp only
            cases hsw : skipWs r1 with
            | nil =>
              rw [hsw] at h
              simp at h
            | cons d r2 =>
              rw [hsw] at h
              have hswx : skipWs (r1 ++ ex) = d :: (r2 ++ ex) := by
                rw [skipWs_append_of_ne_nil ex (by rw [hsw]; simp), hsw, List.cons_append]
              rw [hswx]
              dsimp only at h ⊢
              by_cases hd : d = ':'
              · rw [if_pos hd] at h ⊢
                cases hpv : parseValue fuel (skipWs r2) with
                | error e =>
                  rw [hpv] at h
                  simp at h
                | ok q =>
                  rcases q with ⟨v1, r3⟩
                  rw [hpv] at h
                  dsimp only at h
                  cases hsw3 : skipWs r3 with
                  | nil =>
                    rw [hsw3] at h
                    simp at h
                  | cons d2 r4 =>
                    rw [hsw3] at h
                    dsimp only at h
                    cases hsw2 : skipWs r2 with
                    | nil =>
                      rw [hsw2] at hpv
                      obtain ⟨e, he⟩ := parseValue_nil_eq fuel
                      rw [he] at hpv
                      simp at hpv
                    | cons d3 r5 =>
                      rw [hsw2] at hpv
                      have hswx2 : skipWs (r2 ++ ex) = (d3 :: r5) ++ ex := by
                        rw [skipWs_append_of_ne_nil ex (by rw [hsw2]; simp), hsw2]
                      have hswx3 : skipWs (r3 ++ ex) = d2 :: (r4 ++ ex) := by
                        rw [skipWs_append_of_ne_nil ex (by rw [hsw3]; simp), hsw3,
                          List.cons_append]
                      by_cases hd2c : d2 = ','
                      · rw [if_pos hd2c] at h
                        have hsr3 : safeRest r3 = true :=
                          safeRest_of_skipWs hsw3 (by subst hd2c; decide)
                        have hpvx := ihV k (d3 :: r5) ex v1 r3 hpv (Or.inl hsr3)
                        rw [hswx2, hpvx]
                        dsimp only
                        rw [hswx3]
                        dsimp only
                        rw [if_pos hd2c]
                        cases hsw4 : skipWs r4 with
                        | nil =>
                          rw [hsw4] at h
                          obtain ⟨e, he⟩ := parseMembers_nil_eq fuel (acc ++ [(key, v1)])
                          rw [he] at h
                          simp at h
                        | cons d4 r6 =>
                          rw [hsw4] at h
                          have hswx4 : skipWs (r4 ++ ex) = (d4 :: r6) ++ ex := by
                            rw [skipWs_append_of_ne_nil ex (by rw [hsw4]; simp), hsw4]
                          rw [hswx4]
                          exact ihM k (d4 :: r6) ex (acc ++ [(key, v1)]) v rest h
                      · rw [if_neg hd2c] at h
                        by_cases hd2b : d2 = '\x7d'
                        · rw [if_pos hd2b] at h
                          injection h with h'
                          injection h' with h1 h2
                          subst h1; subst h2
                          have hsr3 : safeRest r3 = true :=
                            safeRest_of_skipWs hsw3 (by subst hd2b; decide)
                          have hpvx := ihV k (d3 :: r5) ex v1 r3 hpv (Or.inl hsr3)
                          rw [hswx2, hpvx]
                          dsimp only
                          rw [hswx3]
                          dsimp only
                          rw [if_neg hd2c, if_pos hd2b]
                        · rw [if_neg hd2b] at h
                          simp at h
              · rw [if_neg hd] at h
                simp at h
        · rw [if_neg hq] at h
          simp at h
    -- parseItems
    · intro k cs ex acc v rest h
      rw [Nat.add_right_comm fuel 1 k]
      rw [parseItems_succ] at h
      rw [parseItems_succ]
      cases hpv : parseValue fuel cs with
      | error e =>
        rw [hpv] at h
        simp at h
      | ok q =>
        rcases q with ⟨v1, r1⟩
        rw [hpv] at h
        dsimp only at h
        cases hsw : skipWs r1 with
        | nil =>
          rw [hsw] at h
          simp at h
        | cons d r2 =>
          rw [hsw] at h
          dsimp only at h
          have hswx : skipWs (r1 ++ ex) = d :: (r2 ++ ex) := by
            rw [skipWs_append_of_ne_nil ex (by rw [hsw]; simp), hsw, List.cons_append]
          by_cases hd : d = ','
          · rw [if_pos hd] at h
            have hsr1 : safeRest r1 = true :=
              safeRest_of_skipWs hsw (by subst hd; decide)
            have hpvx := ihV k cs ex v1 r1 hpv (Or.inl hsr1)
            rw [hpvx]
            dsimp only
            rw [hswx]
            dsimp only
            rw [if_pos hd]
            cases hsw2 : skipWs r2 with
            | nil =>
              rw [hsw2] at h
              obtain ⟨e, he⟩ := parseItems_nil_eq fuel (acc ++ [v1])
              rw [he] at h
              simp at h
            | cons d2 r3 =>
              rw [hsw2] at h
              have hswx2 : skipWs (r2 ++ ex) = (d2 :: r3) ++ ex := by
                rw [skipWs_append_of_ne_nil ex (by rw [hsw2]; simp), hsw2]
              rw [hswx2]
              exact ihI k (d2 :: r3) ex (acc ++ [v1]) v rest h
          · rw [if_neg hd] at h
            by_cases hd2 : d = ']'
            · rw [if_pos hd2] at h
              injection h with h'
              injection h' with h1 h2
              subst h1; subst h2
              have hsr1 : safeRest r1 = true :=
                safeRest_of_skipWs hsw (by subst hd2; decide)
              have hpvx := ihV k cs ex v1 r1 hpv (Or.inl hsr1)
              rw [hpvx]
              dsimp only
              rw [hswx]
              dsimp only
              rw [if_neg hd, if_pos hd2]
            · rw [if_neg hd2] at h
              simp at h

theorem toList_append (s t : String) : (s ++ t).toList = s.toList ++ t.toList :=
  String.data_append s t

theorem jsonLoads_extend_err {J : String} {v : JValue} {r : List Char} (T1 : String)
    (hhead : J.toList = '\x7b' :: r) (hok : jsonLoads J = .ok v)
    (hne : ∃ c ∈ T1.toList, isJsonWs c = false) :
    jsonLoads (J ++ T1) = .error "Extra data" := by
  have hJskip : skipWs J.toList = J.toList := by
    rw [hhead, skipWs, if_neg (by decide)]
  simp only [jsonLoads] at hok
  rw [hJskip] at hok
  cases hpv : parseValue (2 * J.length + 4) J.toList with
  | error e =>
    rw [hpv] at hok
    simp at hok
  | ok p =>
    rcases p with ⟨v0, rest0⟩
    rw [hpv] at hok
    dsimp only at hok
    by_cases hemp : (skipWs rest0).isEmpty = true
    · have hrest0 : skipWs rest0 = [] := List.isEmpty_iff.mp hemp
      have hV := (parseExtension (2 * J.length + 4)).1 (2 * T1.length) J.toList
        T1.toList v0 rest0 hpv (Or.inr ⟨r, hhead⟩)
      simp only [jsonLoads]
      have htl : (J ++ T1).toList = J.toList ++ T1.toList := toList_append J T1
      have hlen : 2 * (J ++ T1).length + 4 = 2 * J.length + 4 + 2 * T1.length := by
        rw [String.length_append]; omega
      rw [htl, hlen]
      have hskipx : skipWs (J.toList ++ T1.toList) = J.toList ++ T1.toList := by
        rw [hhead, List.cons_append, skipWs, if_neg (by decide)]
      rw [hskipx, hV]
      dsimp only
      have hskz : skipWs (rest0 ++ T1.toList) = skipWs T1.toList :=
        skipWs_append_of_eq_nil _ hrest0
      obtain ⟨c0, hc0m, hc0w⟩ := hne
      have hnn : skipWs T1.toList ≠ [] := skipWs_ne_nil_of_mem hc0m hc0w
      rw [hskz, if_neg (by simpa [List.isEmpty_iff] using hnn)]
    · rw [if_neg hemp] at hok
      simp at hok

theorem mem_tail_of_getLast_close {r : List Char}
    (hlast : ('\x7b' :: r).getLast? = some '\x7d') : '\x7d' ∈ r := by
  cases r with
  | nil => simp at hlast
  | cons a r2 =>
    rw [List.getLast?_cons_cons] at hlast
    obtain ⟨hne2, heq⟩ := List.mem_getLast?_eq_getLast (Option.mem_def.mpr hlast)
    rw [heq]
    exact List.getLast_mem hne2

theorem dropWhile_close_head {l : List Char} (h : '\x7d' ∈ l) :
    ∃ w, l.dropWhile (fun c => c ≠ '\x7d') = '\x7d' :: w := by
  induction l with
  | nil => simp at h
  | cons a t ih =>
    by_cases ha : a = '\x7d'
    · subst ha
      exact ⟨t, by simp [List.dropWhile_cons]⟩
    · have h' : '\x7d' ∈ t := by
        rcases List.mem_cons.mp h with h0 | h0
        · exact absurd h0.symm ha
        · exact h0
      obtain ⟨w, hw⟩ := ih h'
      refine ⟨w, ?_⟩
      rw [List.dropWhile_cons]
      simp only [ha, decide_not]
      simpa using hw

theorem regexObjMatch_append_no_close {J T : String} {r : List Char}
    (hhead : J.toList = '\x7b' :: r) (hlast : J.toList.getLast? = some '\x7d')
    (hT : '\x7d' ∉ T.toList) :
    regexObjMatch (J ++ T) = some J := by
  have htl : (J ++ T).toList = J.toList ++ T.toList := toList_append J T
  have hdw : (J.toList ++ T.toList).dropWhile (fun c => c ≠ '\x7b')
      = '\x7b' :: (r ++ T.toList) := by
    rw [hhead, List.cons_append, List.dropWhile_cons]
    simp
  rw [hhead] at hlast
  have hmem : '\x7d' ∈ r := mem_tail_of_getLast_close hlast
  have hcont : (r ++ T.toList).contains '\x7d' = true := by
    simpa using Or.inl hmem
  have key : regexObjMatch (J ++ T)
      = some ((('\x7b' :: (r ++ T.toList)).reverse.dropWhile
          (fun x => x ≠ '\x7d')).reverse.asString) := by
    simp only [regexObjMatch, htl, hdw, hcont, if_true]
  rw [key]
  have hrev : ('\x7b' :: (r ++ T.toList)).reverse
      = T.toList.reverse ++ ('\x7b' :: r).reverse := by
    simp [List.reverse_cons, List.reverse_append, List.append_assoc]
  rw [hrev, List.dropWhile_append]
  have hTdrop : (T.toList.reverse.dropWhile (fun x => x ≠ '\x7d')).isEmpty = true := by
    rw [List.isEmpty_iff, List.dropWhile_eq_nil_iff]
    intro c hc
    simp only [List.mem_reverse] at hc
    have hcne : ¬(c = '\x7d') := fun h0 => hT (h0 ▸ hc)
    simp [hcne]
  rw [hTdrop, if_pos rfl]
  cases hrv : ('\x7b' :: r).reverse with
  | nil => simp at hrv
  | cons hd tl =>
    have h1 := List.head?_reverse ('\x7b' :: r)
    rw [hrv, hlast] at h1
    injection h1 with h1
    subst h1
    rw [List.dropWhile_cons]
    simp only [decide_not]
    rw [if_neg (by simp)]
    rw [← hrv, List.reverse_reverse, ← hhead]
    rfl

theorem regexObjMatch_append_close {J T : String} {r : List Char}
    (hhead : J.toList = '\x7b' :: r) (hT : '\x7d' ∈ T.toList) :
    regexObjMatch (J ++ T) = some (J ++ trimToLastClose T) := by
  have htl : (J ++ T).toList = J.toList ++ T.toList := toList_append J T
  have hdw : (J.toList ++ T.toList).dropWhile (fun c => c ≠ '\x7b')
      = '\x7b' :: (r ++ T.toList) := by
    rw [hhead, List.cons_append, List.dropWhile_cons]
    simp
  have hcont : (r ++ T.toList).contains '\x7d' = true := by
    simpa using Or.inr hT
  have key : regexObjMatch (J ++ T)
      = some ((('\x7b' :: (r ++ T.toList)).reverse.dropWhile
          (fun x => x ≠ '\x7d')).reverse.asString) := by
    simp only [regexObjMatch, htl, hdw, hcont, if_true]
  rw [key]
  have hrev : ('\x7b' :: (r ++ T.toList)).reverse
      = T.toList.reverse ++ ('\x7b' :: r).reverse := by
    simp [List.reverse_cons, List.reverse_append, List.append_assoc]
  rw [hrev, List.dropWhile_append]
  have hTdrop : (T.toList.reverse.dropWhile (fun x => x ≠ '\x7d')).isEmpty = false := by
    obtain ⟨w, hw⟩ := dropWhile_close_head (List.mem_reverse.mpr hT)
    rw [hw]
    rfl
  rw [hTdrop]
  rw [if_neg (by simp)]
  rw [List.reverse_append, List.reverse_reverse, ← hhead]
  rfl

theorem close_mem_trim {T : String} (hT : '\x7d' ∈ T.toList) :
    '\x7d' ∈ (trimToLastClose T).toList := by
  obtain ⟨w, hw⟩ := dropWhile_close_head (List.mem_reverse.mpr hT)
  show '\x7d' ∈ (T.toList.reverse.dropWhile (fun c => c ≠ '\x7d')).reverse
  rw [hw, List.mem_reverse]
  exact List.mem_cons_self _ _

/-- If the regex finds no object-like region, the match is `none`. -/
theorem regexObjMatch_eq_none_of_not_objLike {s : String}
    (h : containsObjLike s = false) : regexObjMatch s = none := by
  unfold containsObjLike at h
  unfold regexObjMatch
  cases hd : s.toList.dropWhile (fun c => c ≠ '\x7b') with
  | nil => rfl
  | cons c t =>
    rw [hd] at h
    have h' : t.contains '\x7d' = false := h
    simp only [h']
    rfl

/-- C10: whenever the sentence-transformer model failed to load
(`model is None`), `query_vector_db` returns exactly the one-element list
`["Error: SentenceTransformer model is not loaded."]` and performs no
database connection or query at all (its event trace is empty). -/
theorem claim_c10 (env : VecEnv) (query_text : String)
    (h : env.modelLoaded = false) :
    query_vector_db_traced env query_text
      = (["Error: SentenceTransformer model is not loaded."], []) := by
  simp [query_vector_db_traced, h]

/-- Witness for C10 at a concrete environment and query. -/
theorem claim_c10_witness :
    query_vector_db_traced vecEnvNoModel "tell me about RAG"
      = (["Error: SentenceTransformer model is not loaded."], []) :=
  claim_c10 vecEnvNoModel "tell me about RAG" rfl

set_option maxRecDepth 20000 in
/-- C9: the keyword-search SQL text contains the literal substring
`LIMIT \x7bTOP_K\x7d` and not `LIMIT 5` (the plain string literal is never
interpolated), and every keyword execution `query_vector_db` performs
submits exactly that text. -/
theorem claim_c9 :
    ("LIMIT \x7bTOP_K\x7d".toList <:+: keyword_search_sql.toList)
    ∧ ¬ ("LIMIT 5".toList <:+: keyword_search_sql.toList)
    ∧ ∀ (env : VecEnv) (query_text sql : String),
        RetEvent.keywordExec sql ∈ (query_vector_db_traced env query_text).2 →
          sql = keyword_search_sql := by
  refine ⟨by decide, by decide, ?_⟩
  intro env query_text sql h
  rcases env with ⟨ml, co, vr, cc, ro, kr⟩
  cases ml <;> cases co <;> cases cc <;> cases ro <;>
    simp_all [query_vector_db_traced]

set_option maxRecDepth 20000 in
/-- Witness for C9's universally quantified part at a concrete run: a
healthy environment does execute the keyword query, with exactly the
uninterpolated SQL text. -/
theorem claim_c9_witness :
    RetEvent.keywordExec keyword_search_sql
        ∈ (query_vector_db_traced vecEnvHealthy "club events").2
      ∧ keyword_search_sql = keyword_search_sql :=
  ⟨by decide,
   claim_c9.2.2 vecEnvHealthy "club events" keyword_search_sql (by decide)⟩

/-- C6: a response with no object-like substring decodes to the fixed
`Could not parse.` error dictionary — and the parsing step, a total
function, never raises. -/
theorem claim_c6 (text : String) (h : containsObjLike text = false) :
    parse_json_from_response text
      = .obj [("intent", .str "error"), ("query", .str "Could not parse.")] := by
  unfold parse_json_from_response
  rw [regexObjMatch_eq_none_of_not_objLike h]

/-- Witness for C6 at a concrete brace-free response. -/
theorem claim_c6_witness :
    parse_json_from_response "hello, I can only answer club questions"
      = .obj [("intent", .str "error"), ("query", .str "Could not parse.")] :=
  claim_c6 "hello, I can only answer club questions" (by decide)

/-- C5 counterexample: a response that is one valid JSON object followed by
trailing text containing a further closing brace.  The object alone decodes
to the structured intent, but `_parse_json_from_response` returns the
`Invalid JSON.` error dictionary, not the decode of that first balanced
object. -/
theorem claim_c5_counterexample :
    parse_json_from_response trailCloseText
        = .obj [("intent", .str "error"), ("query", .str "Invalid JSON.")]
      ∧ jsonLoads structuredJsonText
        = .ok (.obj [("intent", .str "structured"), ("query", .str "SELECT 1")])
      ∧ parse_json_from_response trailCloseText
        ≠ .obj [("intent", .str "structured"), ("query", .str "SELECT 1")] := by
  refine ⟨rfl, rfl, fun h => ?_⟩
  have h2 : (JValue.obj [("intent", .str "error"), ("query", .str "Invalid JSON.")])
      = .obj [("intent", .str "structured"), ("query", .str "SELECT 1")] :=
    (rfl : parse_json_from_response trailCloseText = _).symm.trans h
  simp at h2

/-- C5 amended: the regex match is greedy, from the first `\x7b` to the
*last* `\x7d` of the response.  For every response consisting of one valid
JSON object (beginning with `\x7b` and ending with `\x7d`) followed by
arbitrary trailing text: when the trailing text contains no further closing
brace the router returns the decode of that object, and when it does
contain one the greedy span decodes as a whole and fails, yielding the
`Invalid JSON.` error dictionary. -/
theorem claim_c5_amended (J T : String) (v : JValue) (r : List Char)
    (hhead : J.toList = '\x7b' :: r)
    (hlast : J.toList.getLast? = some '\x7d')
    (hok : jsonLoads J = .ok v) :
    (('\x7d' ∉ T.toList) → parse_json_from_response (J ++ T) = v)
    ∧ (('\x7d' ∈ T.toList) →
        parse_json_from_response (J ++ T)
          = .obj [("intent", .str "error"), ("query", .str "Invalid JSON.")]) := by
  constructor
  · intro hT
    simp only [parse_json_from_response, regexObjMatch_append_no_close hhead hlast hT, hok]
  · intro hT
    have hreg := regexObjMatch_append_close hhead hT
    have herr := jsonLoads_extend_err (trimToLastClose T) hhead hok
      ⟨'\x7d', close_mem_trim hT, by decide⟩
    simp only [parse_json_from_response, hreg, herr]

/-- Witness for C5's amended theorem at the concrete structured object:
trailing text whose only brace is an opening one yields the decode of the
object, and trailing text with a further closing brace yields the
`Invalid JSON.` error dictionary. -/
theorem claim_c5_amended_witness :
    parse_json_from_response (structuredJsonText ++ " see \x7bthe notes")
        = .obj [("intent", .str "structured"), ("query", .str "SELECT 1")]
      ∧ parse_json_from_response (structuredJsonText ++ " Also see \x7bthe notes\x7d.")
        = .obj [("intent", .str "error"), ("query", .str "Invalid JSON.")] :=
  ⟨(claim_c5_amended structuredJsonText " see \x7bthe notes"
      (.obj [("intent", .str "structured"), ("query", .str "SELECT 1")])
      (structuredJsonText.toList.tail) rfl rfl rfl).1 (by decide),
   (claim_c5_amended structuredJsonText " Also see \x7bthe notes\x7d."
      (.obj [("intent", .str "structured"), ("query", .str "SELECT 1")])
      (structuredJsonText.toList.tail) rfl rfl rfl).2 (by decide)⟩

/-- C7 counterexample: when the model's reply has no decodable intent, the
pipeline does not surface a fixed apology — it proceeds to synthesis and
returns whatever the second model call produces (two environments, two
different non-apology answers). -/
theorem claim_c7_counterexample :
    handle_user_query pipeEnvAlpha "What is RAG?" = "alpha response"
      ∧ handle_user_query pipeEnvBeta "What is RAG?" = "beta response"
      ∧ ("alpha response" : String) ≠ "beta response" :=
  ⟨rfl, rfl, by decide⟩

/-- C7 amended: when the model produces no decodable structured intent, the
pipeline downgrades to the error intent and proceeds: the retrieval context
becomes the parser-failure message, synthesis still runs on it, and the
user-visible answer is the synthesis result (the fixed apology appears only
when an adapter call raises; the pipeline never crashes). -/
theorem claim_c7_amended (env : PipeEnv) (user_question : String) (resp : GenResp)
    (hgen : env.gen (mkParsingPrompt user_question) = .ok resp)
    (hnd : noDecodableIntent resp.text) :
    (handle_user_query_traced env user_question).2
        = [.genCall (mkParsingPrompt user_question),
           .genCall (mkFinalPrompt user_question
             "Query parser failed or returned unknown intent: error" none)]
      ∧ handle_user_query env user_question
        = (match env.gen (mkFinalPrompt user_question
              "Query parser failed or returned unknown intent: error" none) with
           | .error _ => "Sorry, I had trouble formulating a response."
           | .ok final_response =>
             match final_response.blockReason with
             | some r => "Sorry, the response was blocked. Reason: " ++ r
             | none => final_response.text) := by
  have hd : dispatchRetrieve env (parse_json_from_response resp.text)
      = ("Query parser failed or returned unknown intent: error", none, []) := by
    rcases hnd with h | ⟨s, e, hs, he⟩
    · unfold parse_json_from_response
      simp only [h]
      rfl
    · unfold parse_json_from_response
      simp only [hs, he]
      rfl
  unfold handle_user_query handle_user_query_traced afterParse
  simp [hgen, hd]

/-- Witness for C7's amended claim: a concrete brace-free model reply makes
the pipeline answer with the synthesizer's text. -/
theorem claim_c7_amended_witness :
    handle_user_query pipeEnvAlpha "any weather today?" = "alpha response" :=
  (claim_c7_amended pipeEnvAlpha "any weather today?" ⟨"alpha response", none⟩
    rfl (Or.inl (by decide))).2

/-- C4: a model response decoding to `{"intent": "structured", "query": Q}`
with non-empty `Q` routes to the structured path: the pipeline calls
`query_relational_db` with exactly `Q`, and the second model call's prompt
is the synthesis prompt whose SQL-query slot holds `Q` itself. -/
theorem claim_c4 (env : PipeEnv) (user_question Q : String) (resp : GenResp)
    (hgen : env.gen (mkParsingPrompt user_question) = .ok resp)
    (hintent : jGet (parse_json_from_response resp.text) "intent"
      = some (.str "structured"))
    (hquery : jGet (parse_json_from_response resp.text) "query" = some (.str Q))
    (hne : Q ≠ "") :
    (handle_user_query_traced env user_question).2
      = [.genCall (mkParsingPrompt user_question),
         .relationalCall (.str Q),
         .genCall (mkFinalPrompt user_question
           ("Database query returned: "
             ++ pyReprRows (query_relational_db env.rel Q))
           (some (.str Q)))] := by
  have hd : dispatchRetrieve env (parse_json_from_response resp.text)
      = ("Database query returned: " ++ pyReprRows (query_relational_db env.rel Q),
         some (.str Q), [.relationalCall (.str Q)]) := by
    unfold dispatchRetrieve
    rw [hintent, hquery]
    simp [isStrVal, pyFalsyOpt, pyFalsyVal, hne, callRelationalDb]
  unfold handle_user_query_traced afterParse
  simp [hgen, hd]

/-- Witness for C4 at a concrete environment whose model replies with a
well-formed structured JSON object. -/
theorem claim_c4_witness :
    pipeEnvStructured.gen (mkParsingPrompt "How many AI events were there?")
        = .ok ⟨structuredJsonText, none⟩
      ∧ (handle_user_query_traced pipeEnvStructured "How many AI events were there?").2
        = [.genCall (mkParsingPrompt "How many AI events were there?"),
           .relationalCall (.str "SELECT 1"),
           .genCall (mkFinalPrompt "How many AI events were there?"
             ("Database query returned: "
               ++ pyReprRows (query_relational_db pipeEnvStructured.rel "SELECT 1"))
             (some (.str "SELECT 1")))] :=
  ⟨rfl,
   claim_c4 pipeEnvStructured "How many AI events were there?" "SELECT 1"
     ⟨structuredJsonText, none⟩ rfl rfl rfl (by decide)⟩

/-- C8: for every question and every behaviour of the external adapters,
`handle_user_query` returns one of the four answer shapes — the parsing
apology, the synthesis apology, the block message (which states the block
reason), or the synthesized text — so no collaborator exception escapes. -/
theorem claim_c8 (env : PipeEnv) (user_question : String) :
    handle_user_query env user_question = "Sorry, I had trouble understanding."
    ∨ ∃ fp, finalPromptOf env user_question = some fp
        ∧ ((∃ e, env.gen fp = .error e
              ∧ handle_user_query env user_question
                = "Sorry, I had trouble formulating a response.")
           ∨ (∃ fr, env.gen fp = .ok fr
              ∧ ((∃ r, fr.blockReason = some r
                    ∧ handle_user_query env user_question
                      = "Sorry, the response was blocked. Reason: " ++ r)
                 ∨ (fr.blockReason = none
                    ∧ handle_user_query env user_question = fr.text)))) := by
  cases hg : env.gen (mkParsingPrompt user_question) with
  | error e =>
    left
    simp [handle_user_query, handle_user_query_traced, hg]
  | ok resp =>
    right
    refine ⟨mkFinalPrompt user_question
      (dispatchRetrieve env (parse_json_from_response resp.text)).1
      (dispatchRetrieve env (parse_json_from_response resp.text)).2.1, ?_, ?_⟩
    · simp [finalPromptOf, hg]
    · cases hf : env.gen (mkFinalPrompt user_question
        (dispatchRetrieve env (parse_json_from_response resp.text)).1
        (dispatchRetrieve env (parse_json_from_response resp.text)).2.1) with
      | error e =>
        left
        exact ⟨e, rfl, by
          simp [handle_user_query, handle_user_query_traced, afterParse, hg, hf]⟩
      | ok fr =>
        right
        refine ⟨fr, rfl, ?_⟩
        cases hb : fr.blockReason with
        | some r =>
          left
          exact ⟨r, rfl, by
            simp [handle_user_query, handle_user_query_traced, afterParse, hg, hf, hb]⟩
        | none =>
          right
          exact ⟨rfl, by
            simp [handle_user_query, handle_user_query_traced, afterParse, hg, hf, hb]⟩

/-- C1: with vector results `[A, B, C]` and lexical results `[B, D, E]`
(all passages distinct), the fused list is exactly `[A, B, C, D, E]`:
vector order first, `B` not duplicated, then the lexical-only passages in
their lexical order, with no duplicates. -/
theorem claim_c1 (q A B C D E : String) (b : Bool)
    (hAB : A ≠ B) (hAC : A ≠ C) (hBC : B ≠ C)
    (hAD : A ≠ D) (hBD : B ≠ D) (hCD : C ≠ D)
    (hAE : A ≠ E) (hBE : B ≠ E) (hCE : C ≠ E) (hDE : D ≠ E) :
    query_vector_db ⟨true, true, .ok [A, B, C], false, b, .ok [B, D, E]⟩ q
      = [A, B, C, D, E] := by
  unfold query_vector_db query_vector_db_traced
  simp [vectorPhase, vectorPhaseGo, dictInsert, keywordPhase, containsKey,
        List.insertionSort, List.orderedInsert, rankLe, List.take,
        hAB, hAC, hBC, hAD, hBD, hCD, hAE, hBE, hCE, hDE]

/-- Witness for C1 at concrete passages. -/
theorem claim_c1_witness :
    query_vector_db vecEnvHealthy "arduino workshop" = ["A", "B", "C", "D", "E"] :=
  claim_c1 "arduino workshop" "A" "B" "C" "D" "E" true
    (by decide) (by decide) (by decide) (by decide) (by decide)
    (by decide) (by decide) (by decide) (by decide) (by decide)

/-- `containsKey` decides membership in the dict's keys. -/
theorem containsKey_iff (m : List (String × Nat)) (k : String) :
    containsKey m k = true ↔ k ∈ keysOf m := by
  induction m with
  | nil => simp [containsKey, keysOf]
  | cons p t ih =>
    obtain ⟨k0, v0⟩ := p
    simp only [containsKey, keysOf, List.map_cons, List.mem_cons,
      Bool.or_eq_true, decide_eq_true_eq]
    constructor
    · rintro (h | h)
      · exact Or.inl h.symm
      · exact Or.inr (ih.mp h)
    · rintro (h | h)
      · exact Or.inl h.symm
      · exact Or.inr (ih.mpr h)

/-- The keyword loop appends exactly the first occurrences of keys not yet
present, each with sentinel rank 100. -/
theorem keywordPhase_eq_dedup (t : List String) :
    ∀ m, keywordPhase m t
      = m ++ (dedupFirstAux (keysOf m) t).map (fun s => (s, 100)) := by
  induction t with
  | nil => intro m; simp [keywordPhase, dedupFirstAux]
  | cons x t ih =>
    intro m
    by_cases hc : x ∈ keysOf m
    · have hck : containsKey m x = true := (containsKey_iff m x).mpr hc
      simp [keywordPhase, dedupFirstAux, hc, hck, ih]
    · have hck : containsKey m x = false := by
        rcases h : containsKey m x with _ | _
        · rfl
        · exact absurd ((containsKey_iff m x).mp h) hc
      have hkeys : keysOf (m ++ [(x, 100)]) = keysOf m ++ [x] := by
        simp [keysOf]
      simp only [keywordPhase, hck, Bool.false_eq_true, if_neg, ih (m ++ [(x, 100)]),
        hkeys, dedupFirstAux, hc, if_false]
      simp [dedupFirstAux, hc]

/-- A list all of whose ranks are equal is already sorted: the stable sort
returns it unchanged. -/
theorem insertionSort_const_rank (l : List (String × Nat)) (n : Nat)
    (h : ∀ p ∈ l, p.2 = n) : List.insertionSort rankLe l = l := by
  induction l with
  | nil => rfl
  | cons x t ih =>
    have ht : ∀ p ∈ t, p.2 = n := fun p hp => h p (List.mem_cons_of_mem x hp)
    rw [List.insertionSort, ih ht]
    cases t with
    | nil => rfl
    | cons y t2 =>
      have hx : x.2 = n := h x (List.mem_cons_self x (y :: t2))
      have hy : y.2 = n := ht y (List.mem_cons_self y t2)
      rw [List.orderedInsert, if_pos (by simp [rankLe, hx, hy])]

/-- Deduplication never lengthens a list. -/
theorem dedupFirstAux_length_le (t : List String) :
    ∀ seen, (dedupFirstAux seen t).length ≤ t.length := by
  induction t with
  | nil => intro seen; simp [dedupFirstAux]
  | cons x t ih =>
    intro seen
    by_cases hc : x ∈ seen
    · simp only [dedupFirstAux, if_pos hc]
      exact Nat.le_succ_of_le (ih seen)
    · simp only [dedupFirstAux, if_neg hc, List.length_cons]
      exact Nat.succ_le_succ (ih (seen ++ [x]))

/-- C3: if the vector path raises, `query_vector_db` returns the lexical
results deduplicated in their lexical order; if both paths raise or return
no rows, it returns exactly the one-element `"No relevant documents found."`
sentinel, never an empty list. -/
theorem claim_c3 :
    (∀ (q : String) (krows : List String) (b : Bool),
        krows ≠ [] → krows.length ≤ TOP_K →
          query_vector_db ⟨true, true, .error (), false, b, .ok krows⟩ q
            = dedupFirst krows)
    ∧ (∀ (q : String) (vr kr : Except Unit (List String)) (b1 b2 : Bool),
        (vr = .error () ∨ vr = .ok []) → (kr = .error () ∨ kr = .ok []) →
          query_vector_db ⟨true, true, vr, b1, b2, kr⟩ q
            = ["No relevant documents found."]) := by
  constructor
  · intro q krows b hne hlen
    unfold query_vector_db query_vector_db_traced
    have hmap : keywordPhase [] krows
        = (dedupFirstAux [] krows).map (fun s => (s, 100)) := by
      simpa [keysOf] using keywordPhase_eq_dedup krows []
    have hsort : List.insertionSort rankLe ((dedupFirstAux [] krows).map
        (fun s => (s, 100)))
        = (dedupFirstAux [] krows).map (fun s => (s, 100)) := by
      refine insertionSort_const_rank _ 100 ?_
      intro p hp
      rcases List.mem_map.mp hp with ⟨s, _, rfl⟩
      rfl
    have hne2 : dedupFirstAux [] krows ≠ [] := by
      cases krows with
      | nil => exact absurd rfl hne
      | cons x t =>
        simp [dedupFirstAux]
    have hlen2 : (dedupFirstAux [] krows).length ≤ 10 := by
      have := dedupFirstAux_length_le krows []
      have h5 : krows.length ≤ 5 := hlen
      omega
    simp [hmap, hsort, List.map_map, hne2, dedupFirst]
    rw [show (Prod.fst ∘ fun s : String => (s, (100 : Nat))) = id from rfl,
      List.map_id]
    exact List.take_of_length_le hlen2
  · intro q vr kr b1 b2 hv hk
    rcases hv with rfl | rfl <;> rcases hk with rfl | rfl <;>
      cases b1 <;> cases b2 <;>
        simp [query_vector_db, query_vector_db_traced, vectorPhase,
          vectorPhaseGo, keywordPhase, List.insertionSort]

/-- Witness for C3 at concrete runs: vector failure with duplicate keyword
rows, and a run in which both stages raise. -/
theorem claim_c3_witness :
    query_vector_db vecEnvVectorFails "rag" = dedupFirst ["B", "D", "E"]
      ∧ query_vector_db vecEnvBothFail "rag" = ["No relevant documents found."] :=
  ⟨claim_c3.1 "rag" ["B", "D", "E"] true (by decide) (by decide),
   claim_c3.2 "rag" (.error ()) (.error ()) false true (Or.inl rfl) (Or.inl rfl)⟩

/-- Unfolding equation of `dictInsert` when the head key matches. -/
theorem dictInsert_cons_eq {k0 k : String} {v0 v : Nat}
    {t : List (String × Nat)} (h : k0 = k) :
    dictInsert ((k0, v0) :: t) k v = (k0, v) :: t := by
  simp [dictInsert, h]

/-- Unfolding equation of `dictInsert` when the head key differs. -/
theorem dictInsert_cons_ne {k0 k : String} {v0 v : Nat}
    {t : List (String × Nat)} (h : ¬k0 = k) :
    dictInsert ((k0, v0) :: t) k v = (k0, v0) :: dictInsert t k v := by
  simp [dictInsert, h]

/-- Keys after a dict assignment: the old keys, plus `k`. -/
theorem mem_keysOf_dictInsert {a k : String} {v : Nat} (m : List (String × Nat)) :
    a ∈ keysOf (dictInsert m k v) ↔ a ∈ keysOf m ∨ a = k := by
  induction m with
  | nil => simp [dictInsert, keysOf]
  | cons p t ih =>
    obtain ⟨k0, v0⟩ := p
    by_cases h : k0 = k
    · subst h
      rw [dictInsert_cons_eq rfl]
      simp only [keysOf, List.map_cons, List.mem_cons]
      tauto
    · rw [dictInsert_cons_ne h]
      simp only [keysOf, List.map_cons, List.mem_cons]
      rw [show (a ∈ List.map Prod.fst (dictInsert t k v))
          = (a ∈ keysOf (dictInsert t k v)) from rfl, ih]
      show _ ↔ (_ ∨ a ∈ keysOf t) ∨ _
      tauto

/-- A dict assignment only writes the value `v` or keeps existing pairs. -/
theorem rank_mem_dictInsert {k : String} {v : Nat} (m : List (String × Nat)) :
    ∀ p ∈ dictInsert m k v, p.2 = v ∨ p ∈ m := by
  induction m with
  | nil =>
    intro p hp
    simp only [dictInsert, List.mem_singleton] at hp
    subst hp
    exact Or.inl rfl
  | cons q t ih =>
    obtain ⟨k0, v0⟩ := q
    intro p hp
    by_cases h : k0 = k
    · rw [dictInsert_cons_eq h, List.mem_cons] at hp
      rcases hp with rfl | hp
      · exact Or.inl rfl
      · exact Or.inr (List.mem_cons_of_mem _ hp)
    · rw [dictInsert_cons_ne h, List.mem_cons] at hp
      rcases hp with rfl | hp
      · exact Or.inr (List.mem_cons_self _ _)
      · rcases ih p hp with h1 | h1
        · exact Or.inl h1
        · exact Or.inr (List.mem_cons_of_mem _ h1)

/-- A dict assignment keeps the keys without duplicates. -/
theorem nodup_keysOf_dictInsert {k : String} {v : Nat} (m : List (String × Nat))
    (h : (keysOf m).Nodup) : (keysOf (dictInsert m k v)).Nodup := by
  induction m with
  | nil => simp [dictInsert, keysOf]
  | cons p t ih =>
    obtain ⟨k0, v0⟩ := p
    simp only [keysOf, List.map_cons, List.nodup_cons] at h
    by_cases hk : k0 = k
    · rw [dictInsert_cons_eq hk]
      simp only [keysOf, List.map_cons, List.nodup_cons]
      exact h
    · rw [dictInsert_cons_ne hk]
      simp only [keysOf, List.map_cons, List.nodup_cons]
      refine ⟨?_, ih h.2⟩
      rw [show (k0 ∈ List.map Prod.fst (dictInsert t k v))
          = (k0 ∈ keysOf (dictInsert t k v)) from rfl, mem_keysOf_dictInsert]
      rintro (hmem | rfl)
      · exact h.1 hmem
      · exact hk rfl

/-- A dict assignment grows the dict by at most one entry. -/
theorem length_dictInsert {k : String} {v : Nat} (m : List (String × Nat)) :
    (dictInsert m k v).length ≤ m.length + 1 := by
  induction m with
  | nil => simp [dictInsert]
  | cons p t ih =>
    obtain ⟨k0, v0⟩ := p
    by_cases h : k0 = k
    · rw [dictInsert_cons_eq h]
      simp
    · rw [dictInsert_cons_ne h]
      simp only [List.length_cons]
      omega

/-- Keys of the vector loop: the starting keys plus the rows seen. -/
theorem mem_keysOf_vectorPhaseGo {a : String} (rows : List String) :
    ∀ (m : List (String × Nat)) (i : Nat),
      a ∈ keysOf (vectorPhaseGo m i rows) ↔ a ∈ keysOf m ∨ a ∈ rows := by
  induction rows with
  | nil => intro m i; simp [vectorPhaseGo]
  | cons r t ih =>
    intro m i
    simp only [vectorPhaseGo, ih, mem_keysOf_dictInsert, List.mem_cons]
    tauto

/-- The vector loop keeps the keys without duplicates. -/
theorem nodup_keysOf_vectorPhaseGo (rows : List String) :
    ∀ (m : List (String × Nat)) (i : Nat), (keysOf m).Nodup →
      (keysOf (vectorPhaseGo m i rows)).Nodup := by
  induction rows with
  | nil => intro m i h; exact h
  | cons r t ih =>
    intro m i h
    exact ih _ _ (nodup_keysOf_dictInsert m h)

/-- All ranks the vector loop writes stay below `i + rows.length`. -/
theorem rank_lt_vectorPhaseGo (rows : List String) :
    ∀ (m : List (String × Nat)) (i : Nat), (∀ p ∈ m, p.2 < i) →
      ∀ p ∈ vectorPhaseGo m i rows, p.2 < i + rows.length := by
  induction rows with
  | nil =>
    intro m i h p hp
    simpa using h p hp
  | cons r t ih =>
    intro m i h p hp
    have hstep : ∀ p ∈ dictInsert m r i, p.2 < i + 1 := by
      intro p hp
      rcases rank_mem_dictInsert m p hp with h1 | h1
      · omega
      · exact Nat.lt_succ_of_lt (h p h1)
    have := ih (dictInsert m r i) (i + 1) hstep p hp
    simp only [List.length_cons]
    omega

/-- The vector loop adds at most one entry per row. -/
theorem length_vectorPhaseGo (rows : List String) :
    ∀ (m : List (String × Nat)) (i : Nat),
      (vectorPhaseGo m i rows).length ≤ m.length + rows.length := by
  induction rows with
  | nil => intro m i; simp [vectorPhaseGo]
  | cons r t ih =>
    intro m i
    have h1 := ih (dictInsert m r i) (i + 1)
    have h2 := length_dictInsert (k := r) (v := i) m
    simp only [vectorPhaseGo, List.length_cons]
    omega

/-- Keys of the vector stage are exactly the vector rows. -/
theorem mem_keysOf_vectorPhase {a : String} (rows : List String) :
    a ∈ keysOf (vectorPhase rows) ↔ a ∈ rows := by
  simpa [keysOf] using mem_keysOf_vectorPhaseGo (a := a) rows [] 0

/-- The vector stage has no duplicate keys. -/
theorem nodup_keysOf_vectorPhase (rows : List String) :
    (keysOf (vectorPhase rows)).Nodup :=
  nodup_keysOf_vectorPhaseGo rows [] 0 (by simp [keysOf])

/-- Vector ranks are positions: always below the number of rows. -/
theorem rank_lt_vectorPhase (rows : List String) :
    ∀ p ∈ vectorPhase rows, p.2 < rows.length := by
  intro p hp
  simpa using rank_lt_vectorPhaseGo rows [] 0 (by simp) p hp

/-- The vector stage has at most one entry per row. -/
theorem length_vectorPhase (rows : List String) :
    (vectorPhase rows).length ≤ rows.length := by
  simpa using length_vectorPhaseGo rows [] 0

/-- Deduplicated entries avoid `seen` and come from the input. -/
theorem mem_dedupFirstAux {a : String} (t : List String) :
    ∀ seen, a ∈ dedupFirstAux seen t → a ∉ seen ∧ a ∈ t := by
  induction t with
  | nil => intro seen h; simp [dedupFirstAux] at h
  | cons x t ih =>
    intro seen h
    by_cases hc : x ∈ seen
    · simp only [dedupFirstAux, if_pos hc] at h
      have := ih seen h
      exact ⟨this.1, List.mem_cons_of_mem x this.2⟩
    · simp only [dedupFirstAux, if_neg hc, List.mem_cons] at h
      rcases h with rfl | h
      · exact ⟨hc, List.mem_cons_self a t⟩
      · have := ih (seen ++ [x]) h
        refine ⟨fun hmem => this.1 (List.mem_append_left _ hmem),
          List.mem_cons_of_mem x this.2⟩

/-- Deduplication yields a list without duplicates. -/
theorem nodup_dedupFirstAux (t : List String) :
    ∀ seen, (dedupFirstAux seen t).Nodup := by
  induction t with
  | nil => intro seen; simp [dedupFirstAux]
  | cons x t ih =>
    intro seen
    by_cases hc : x ∈ seen
    · simp only [dedupFirstAux, if_pos hc]
      exact ih seen
    · simp only [dedupFirstAux, if_neg hc, List.nodup_cons]
      refine ⟨fun hmem => ?_, ih (seen ++ [x])⟩
      exact (mem_dedupFirstAux t (seen ++ [x]) hmem).1 (List.mem_append_right _ (by simp))

/-- In a dict with nodup keys a key determines its value. -/
theorem value_unique_of_nodup_keys {m : List (String × Nat)}
    (h : (keysOf m).Nodup) :
    ∀ {k : String} {v1 v2 : Nat}, (k, v1) ∈ m → (k, v2) ∈ m → v1 = v2 := by
  induction m with
  | nil => intro k v1 v2 h1; simp at h1
  | cons p t ih =>
    obtain ⟨k0, v0⟩ := p
    simp only [keysOf, List.map_cons, List.nodup_cons] at h
    intro k v1 v2 h1 h2
    rcases List.mem_cons.mp h1 with he1 | ht1 <;>
      rcases List.mem_cons.mp h2 with he2 | ht2
    · injection he1 with hk1 hv1
      injection he2 with hk2 hv2
      rw [hv1, hv2]
    · injection he1 with hk1 hv1
      subst hk1
      exact absurd (List.mem_map_of_mem Prod.fst ht2) h.1
    · injection he2 with hk2 hv2
      subst hk2
      exact absurd (List.mem_map_of_mem Prod.fst ht1) h.1
    · exact ih h.2 ht1 ht2

set_option maxHeartbeats 1000000 in
/-- C2: whenever both retrieval paths return row lists (the vector list
within its `LIMIT TOP_K` bound), the fused evidence list has no duplicate
passage texts, has length at most 10, contains every vector passage, and
ranks every vector passage strictly above every passage found only by
lexical search. -/
theorem claim_c2 (q : String) (vrows krows : List String) (b2 : Bool)
    (hlen : vrows.length ≤ TOP_K) :
    (query_vector_db ⟨true, true, .ok vrows, false, b2, .ok krows⟩ q).Nodup
    ∧ (query_vector_db ⟨true, true, .ok vrows, false, b2, .ok krows⟩ q).length ≤ 10
    ∧ (∀ a ∈ vrows, a ∈ query_vector_db ⟨true, true, .ok vrows, false, b2, .ok krows⟩ q)
    ∧ (∀ (a b : String) (i j : Nat), a ∈ vrows → b ∉ vrows →
        (query_vector_db ⟨true, true, .ok vrows, false, b2, .ok krows⟩ q)[i]?
          = some a →
        (query_vector_db ⟨true, true, .ok vrows, false, b2, .ok krows⟩ q)[j]?
          = some b →
        i < j) := by
  have hres : query_vector_db ⟨true, true, .ok vrows, false, b2, .ok krows⟩ q
      = (if ((List.insertionSort rankLe
              (keywordPhase (vectorPhase vrows) krows)).map Prod.fst).isEmpty
         then ["No relevant documents found."]
         else ((List.insertionSort rankLe
              (keywordPhase (vectorPhase vrows) krows)).map Prod.fst).take 10) := rfl
  rw [hres]
  set m1 := vectorPhase vrows with hm1
  set m2 := keywordPhase m1 krows with hm2
  set L := List.insertionSort rankLe m2 with hLdef
  set ranked := L.map Prod.fst with hrankeddef
  have hperm : L.Perm m2 := List.perm_insertionSort rankLe m2
  have hpair : List.Pairwise rankLe L := List.sorted_insertionSort rankLe m2
  have hv_nodup : (keysOf m1).Nodup := nodup_keysOf_vectorPhase vrows
  have hsplit : m2 = m1 ++ (dedupFirstAux (keysOf m1) krows).map (fun s => (s, 100)) :=
    keywordPhase_eq_dedup krows m1
  have hkeys : keysOf m2 = keysOf m1 ++ dedupFirstAux (keysOf m1) krows := by
    rw [hsplit]
    show List.map Prod.fst (m1 ++ _) = _
    rw [List.map_append, List.map_map,
      show (Prod.fst ∘ fun s : String => (s, (100 : Nat))) = id from rfl, List.map_id]
    rfl
  have hkeys_nodup : (keysOf m2).Nodup := by
    rw [hkeys, List.nodup_append]
    exact ⟨hv_nodup, nodup_dedupFirstAux krows _,
      fun a ha hd => (mem_dedupFirstAux krows _ hd).1 ha⟩
  have hm2_nodup : m2.Nodup := List.Nodup.of_map Prod.fst hkeys_nodup
  have hL_nodup : L.Nodup := hperm.nodup_iff.mpr hm2_nodup
  have hranked_perm : ranked.Perm (keysOf m2) := hperm.map Prod.fst
  have hranked_nodup : ranked.Nodup := hranked_perm.nodup_iff.mpr hkeys_nodup
  have h5 : vrows.length ≤ 5 := hlen
  have hrank_lt : ∀ p ∈ m2, p.1 ∈ vrows → p.2 < 100 := by
    intro p hp hv
    rw [hsplit] at hp
    rcases List.mem_append.mp hp with h1 | h1
    · have := rank_lt_vectorPhase vrows p h1
      omega
    · rcases List.mem_map.mp h1 with ⟨s, hs, rfl⟩
      exact absurd ((mem_keysOf_vectorPhase vrows).mpr hv)
        (mem_dedupFirstAux krows _ hs).1
  have hrank_eq : ∀ p ∈ m2, p.1 ∉ vrows → p.2 = 100 := by
    intro p hp hv
    rw [hsplit] at hp
    rcases List.mem_append.mp hp with h1 | h1
    · exact absurd ((mem_keysOf_vectorPhase vrows).mp
        (List.mem_map_of_mem Prod.fst h1)) hv
    · rcases List.mem_map.mp h1 with ⟨s, hs, rfl⟩
      rfl
  have hm1_len : m1.length ≤ 5 := le_trans (length_vectorPhase vrows) h5
  -- any sorted position holding a rank below 100 lies in the first block
  have hbound : ∀ (i : Nat) (hi : i < L.length), (L[i]).2 < 100 → i < 10 := by
    intro i hi hlt
    have hsub : ∀ p ∈ L.take i, p ∈ m1 := by
      intro p hp
      obtain ⟨n, hn, hpn⟩ := List.mem_iff_getElem.mp hp
      have hni : n < i := lt_of_lt_of_le hn (List.length_take_le i L)
      have hnL : n < L.length := lt_trans hni hi
      have hLn : L[n] = p := (@List.getElem_take _ L i n hn).symm.trans hpn
      have hle : rankLe (L[n]) (L[i]) :=
        List.pairwise_iff_getElem.mp hpair n i hnL hi hni
      have hp100 : p.2 < 100 := by
        have : p.2 ≤ (L[i]).2 := hLn ▸ hle
        omega
      have hpm2 : p ∈ m2 := hperm.subset (hLn ▸ List.getElem_mem hnL)
      rw [hsplit] at hpm2
      rcases List.mem_append.mp hpm2 with h1 | h1
      · exact h1
      · rcases List.mem_map.mp h1 with ⟨s, _, rfl⟩
        omega
    have hnd : (L.take i).Nodup := List.Nodup.sublist (List.take_sublist i L) hL_nodup
    have hlen_take : (L.take i).length = i := by
      rw [List.length_take]
      exact Nat.min_eq_left (Nat.le_of_lt hi)
    have := (hnd.subperm hsub).length_le
    omega
  have hlenr : ranked.length = L.length := by
    rw [hrankeddef]
    exact List.length_map L Prod.fst
  have hfst_of : ∀ (n : Nat) (hn : n < L.length) (x : String),
      ranked[n]? = some x → (L[n]).1 = x := by
    intro n hn x hx
    rw [hrankeddef, List.getElem?_map, List.getElem?_eq_getElem hn] at hx
    simpa using hx
  refine ⟨?_, ?_, ?_, ?_⟩
  · -- no duplicates
    by_cases h : ranked.isEmpty
    · simp [h]
    · simp only [h, if_false, Bool.false_eq_true]
      exact List.Nodup.sublist (List.take_sublist 10 ranked) hranked_nodup
  · -- length at most 10
    by_cases h : ranked.isEmpty
    · simp [h]
    · simp only [h, if_false, Bool.false_eq_true]
      exact List.length_take_le 10 ranked
  · -- every vector passage appears
    intro a ha
    have hamem : a ∈ ranked :=
      hranked_perm.mem_iff.mpr
        (hkeys ▸ List.mem_append_left _ ((mem_keysOf_vectorPhase vrows).mpr ha))
    have hne : ranked.isEmpty = false := by
      rcases hr : ranked with _ | _
      · rw [hr] at hamem
        simp at hamem
      · rfl
    simp only [hne, if_false, Bool.false_eq_true]
    obtain ⟨i, hi, hgi⟩ := List.mem_iff_getElem.mp hamem
    have hgi2 : ranked[i]? = some a := List.getElem?_eq_some_iff.mpr ⟨hi, hgi⟩
    have hiL : i < L.length := by omega
    have hfst : (L[i]).1 = a := hfst_of i hiL a hgi2
    have hpa2 : (L[i]).2 < 100 :=
      hrank_lt _ (hperm.subset (List.getElem_mem hiL)) (hfst ▸ ha)
    have hi10 : i < 10 := hbound i hiL hpa2
    refine List.mem_iff_getElem?.mpr ⟨i, ?_⟩
    rw [List.getElem?_take, if_pos hi10]
    exact hgi2
  · -- vector passages rank strictly above lexical-only passages
    intro a b i j ha hb hia hjb
    have hamem : a ∈ ranked :=
      hranked_perm.mem_iff.mpr
        (hkeys ▸ List.mem_append_left _ ((mem_keysOf_vectorPhase vrows).mpr ha))
    have hne : ranked.isEmpty = false := by
      rcases hr : ranked with _ | _
      · rw [hr] at hamem
        simp at hamem
      · rfl
    simp only [hne, if_false, Bool.false_eq_true] at hia hjb
    rw [List.getElem?_take] at hia hjb
    by_cases hi10 : i < 10
    swap
    · rw [if_neg hi10] at hia
      exact absurd hia (by simp)
    by_cases hj10 : j < 10
    swap
    · rw [if_neg hj10] at hjb
      exact absurd hjb (by simp)
    rw [if_pos hi10] at hia
    rw [if_pos hj10] at hjb
    obtain ⟨hi, hgi⟩ := List.getElem?_eq_some_iff.mp hia
    obtain ⟨hj, hgj⟩ := List.getElem?_eq_some_iff.mp hjb
    have hiL : i < L.length := by omega
    have hjL : j < L.length := by omega
    have hfa : (L[i]).1 = a := hfst_of i hiL a hia
    have hfb : (L[j]).1 = b := hfst_of j hjL b hjb
    have hpa2 : (L[i]).2 < 100 :=
      hrank_lt _ (hperm.subset (List.getElem_mem hiL)) (hfa ▸ ha)
    have hpb2 : (L[j]).2 = 100 :=
      hrank_eq _ (hperm.subset (List.getElem_mem hjL)) (hfb ▸ hb)
    rcases Nat.lt_trichotomy i j with hlt | heq | hgt
    · exact hlt
    · subst heq
      exact absurd (hfa.symm.trans hfb ▸ ha) hb
    · have hle : rankLe (L[j]) (L[i]) :=
        List.pairwise_iff_getElem.mp hpair j i hjL hiL hgt
      have : (L[j]).2 ≤ (L[i]).2 := hle
      omega

/-- Witness for C2 at a concrete healthy run. -/
theorem claim_c2_witness :
    (query_vector_db vecEnvHealthy "iot lecture").Nodup
      ∧ (query_vector_db vecEnvHealthy "iot lecture").length ≤ 10
      ∧ (∀ a ∈ ["A", "B", "C"], a ∈ query_vector_db vecEnvHealthy "iot lecture")
      ∧ (∀ (a b : String) (i j : Nat), a ∈ ["A", "B", "C"] → b ∉ ["A", "B", "C"] →
          (query_vector_db vecEnvHealthy "iot lecture")[i]? = some a →
          (query_vector_db vecEnvHealthy "iot lecture")[j]? = some b →
          i < j) :=
  claim_c2 "iot lecture" ["A", "B", "C"] ["B", "D", "E"] true (by decide)

end Bionary
